import Mathlib

/-!
Shallow embedding of the numla calculator core (src/calculator.js and its
revisions in the repository) together with proofs about the documented
behaviour of its evaluation pipeline.

Conventions used throughout this development:
* JavaScript float64 arithmetic is modelled by exact rational arithmetic
  extended with signed infinities and NaN (the JNum type).  All inputs
  appearing in the theorems below only exercise values on which the two
  semantics produce the same displayed results.
* JavaScript strings are modelled as Lean strings (lists of characters);
  the inputs of interest are ASCII, where the UTF-16 based index
  arithmetic of the source coincides with character counting.
* External libraries (mathjs, chrono-node, Intl) are modelled: the mathjs
  expression engine is embedded as a small tokenizer/evaluator covering
  the fragment the calculator exercises, chrono-node is a parameter of the
  configuration (with a concrete small model used for concrete runs), and
  the Intl number/date formatters are implemented following their
  documented output for the it-IT and en-US locales.
-/

namespace Numla

/-! ## Character classes (JavaScript regular-expression classes) -/

/-- Whitespace as matched by the JavaScript regex class backslash-s
(restricted to the ASCII whitespace actually occurring in inputs). -/
def isWs (c : Char) : Bool :=
  c = ' ' || c = '\t' || c = '\n' || c = '\r' || c = '\x0b' || c = '\x0c'

/-- Decimal digit. -/
def isDigitC (c : Char) : Bool :=
  '0' ≤ c && c ≤ '9'

/-- ASCII letter. -/
def isAlphaC (c : Char) : Bool :=
  ('a' ≤ c && c ≤ 'z') || ('A' ≤ c && c ≤ 'Z')

/-- Word character, the JavaScript class backslash-w. -/
def isWordC (c : Char) : Bool :=
  isAlphaC c || isDigitC c || c = '_'

/-- ASCII lower-casing, as used for case-insensitive regex matching. -/
def lowerC (c : Char) : Char :=
  if 'A' ≤ c && c ≤ 'Z' then Char.ofNat (c.toNat + 32) else c

def lowerStr (s : List Char) : List Char :=
  s.map lowerC

/-- Case-insensitive character comparison. -/
def eqCI (a b : Char) : Bool :=
  lowerC a = lowerC b

/-- Case-insensitive literal match: if s starts with pat (ignoring case),
return the remainder. -/
def matchCI (pat : List Char) (s : List Char) : Option (List Char) :=
  match pat, s with
  | [], rest => some rest
  | _ :: _, [] => none
  | p :: ps, c :: cs => if eqCI p c then matchCI ps cs else none

/-- Case-sensitive literal match. -/
def matchCS (pat : List Char) (s : List Char) : Option (List Char) :=
  match pat, s with
  | [], rest => some rest
  | _ :: _, [] => none
  | p :: ps, c :: cs => if p = c then matchCS ps cs else none

/-- Drop leading whitespace. -/
def dropWs (s : List Char) : List Char :=
  s.dropWhile (fun c => isWs c)

/-- Require at least one whitespace character, then drop the whole run.
Models the regex fragment backslash-s-plus. -/
def dropWs1 (s : List Char) : Option (List Char) :=
  match s with
  | c :: cs => if isWs c then some (dropWs cs) else none
  | [] => none

/-- JavaScript String.prototype.trim. -/
def jsTrim (s : List Char) : List Char :=
  ((s.dropWhile (fun c => isWs c)).reverse.dropWhile (fun c => isWs c)).reverse

/-- Word boundary test between a previous character (none at the start of
the string) and the first character of the rest. -/
def boundary (prev : Option Char) (next : Option Char) : Bool :=
  (match prev with | none => false | some c => isWordC c) ≠
  (match next with | none => false | some c => isWordC c)

/-- Boundary before the next character when the previous character is known. -/
def boundaryBefore (prev : Option Char) (s : List Char) : Bool :=
  boundary prev (s.head?)

/-! ## Exact rationals

Kernel-computable exact rational arithmetic (numerator and positive
denominator, normalised with a fuel-based Euclidean gcd), the number
field of the JavaScript model. -/

structure MRat where
  num : ℤ
  den : ℤ
deriving DecidableEq, Repr

def natGcdF : ℕ → ℕ → ℕ → ℕ
  | 0, _, n => n
  | _ + 1, 0, n => n
  | f + 1, m, n => natGcdF f (n % m) m

def natGcdM (m n : ℕ) : ℕ :=
  natGcdF (m + 1) m n

def mkMRat (n d : ℤ) : MRat :=
  if d = 0 then ⟨0, 1⟩
  else
    let s : ℤ := if d < 0 then -1 else 1
    let n2 := s * n
    let d2 := s * d
    let g : ℤ := (natGcdM n2.natAbs d2.natAbs : ℕ)
    if g = 0 then ⟨0, 1⟩ else ⟨n2 / g, d2 / g⟩

instance (n : ℕ) : OfNat MRat n :=
  ⟨⟨(n : ℤ), 1⟩⟩

instance : NatCast MRat :=
  ⟨fun n => ⟨(n : ℤ), 1⟩⟩

instance : IntCast MRat :=
  ⟨fun i => ⟨i, 1⟩⟩

instance : Neg MRat :=
  ⟨fun a => ⟨-a.num, a.den⟩⟩

instance : Add MRat :=
  ⟨fun a b => mkMRat (a.num * b.den + b.num * a.den) (a.den * b.den)⟩

instance : Sub MRat :=
  ⟨fun a b => mkMRat (a.num * b.den - b.num * a.den) (a.den * b.den)⟩

instance : Mul MRat :=
  ⟨fun a b => mkMRat (a.num * b.num) (a.den * b.den)⟩

instance : Div MRat :=
  ⟨fun a b => mkMRat (a.num * b.den) (a.den * b.num)⟩

instance : LT MRat :=
  ⟨fun a b => a.num * b.den < b.num * a.den⟩

instance : LE MRat :=
  ⟨fun a b => a.num * b.den ≤ b.num * a.den⟩

instance (a b : MRat) : Decidable (a < b) :=
  inferInstanceAs (Decidable (a.num * b.den < b.num * a.den))

instance (a b : MRat) : Decidable (a ≤ b) :=
  inferInstanceAs (Decidable (a.num * b.den ≤ b.num * a.den))

/-- Floor of an exact rational. -/
def mfloor (a : MRat) : ℤ :=
  Int.fdiv a.num a.den

/-- Ceiling of an exact rational. -/
def mceil (a : MRat) : ℤ :=
  -(Int.fdiv (-a.num) a.den)

/-- Integer power of ten as an exact rational. -/
def pow10Z (e : ℤ) : MRat :=
  if 0 ≤ e then ⟨(10 : ℤ) ^ e.toNat, 1⟩ else ⟨1, (10 : ℤ) ^ (-e).toNat⟩

def pow10N (k : ℕ) : MRat :=
  ⟨(10 : ℤ) ^ k, 1⟩

/-! ## JavaScript numbers

Exact rational arithmetic extended with the two infinities and NaN, enough
to model the float64 results the calculator produces on the inputs of
interest (division by zero included). -/

inductive JNum where
  | fin (q : MRat)
  | inf
  | negInf
  | nan
deriving DecidableEq, Repr

namespace JNum

def isNaN : JNum → Bool
  | nan => true
  | _ => false

def isFinite : JNum → Bool
  | fin _ => true
  | _ => false

def add : JNum → JNum → JNum
  | fin a, fin b => fin (a + b)
  | fin _, inf => inf
  | fin _, negInf => negInf
  | inf, fin _ => inf
  | negInf, fin _ => negInf
  | inf, inf => inf
  | negInf, negInf => negInf
  | inf, negInf => nan
  | negInf, inf => nan
  | _, _ => nan

def neg : JNum → JNum
  | fin a => fin (-a)
  | inf => negInf
  | negInf => inf
  | nan => nan

def sub (a b : JNum) : JNum :=
  add a (neg b)

def signSplit (q : MRat) (pos neg : JNum) : JNum :=
  if q > 0 then pos else if q < 0 then neg else nan

def mul : JNum → JNum → JNum
  | fin a, fin b => fin (a * b)
  | fin a, inf => signSplit a inf negInf
  | fin a, negInf => signSplit a negInf inf
  | inf, fin b => signSplit b inf negInf
  | negInf, fin b => signSplit b negInf inf
  | inf, inf => inf
  | negInf, negInf => inf
  | inf, negInf => negInf
  | negInf, inf => negInf
  | _, _ => nan

def div : JNum → JNum → JNum
  | fin a, fin b =>
      if b = 0 then (if a > 0 then inf else if a < 0 then negInf else nan)
      else fin (a / b)
  | fin _, inf => fin 0
  | fin _, negInf => fin 0
  | inf, fin b => if b ≥ 0 then inf else negInf
  | negInf, fin b => if b ≥ 0 then negInf else inf
  | _, _ => nan

/-- Scale a JNum by an exact rational factor (used by unit conversion). -/
def scale (x : JNum) (f : MRat) : JNum :=
  mul x (fin f)

end JNum

/-! ## Decimal rendering helpers -/

/-- Digits of a natural number, most significant first. -/
def natDigitsAux : Nat → Nat → List Char
  | 0, _ => []
  | _ + 1, 0 => []
  | fuel + 1, n =>
      natDigitsAux fuel (n / 10) ++ [Char.ofNat (48 + n % 10)]

def natToDigits (n : Nat) : List Char :=
  if n = 0 then ['0'] else natDigitsAux (n + 1) n

/-- Digits of a natural number in a given base (2, 8 or 16), upper-case,
as produced by Number.prototype.toString(base).toUpperCase(). -/
def natToBaseAux (base : Nat) : Nat → Nat → List Char
  | 0, _ => []
  | _ + 1, 0 => []
  | fuel + 1, n =>
      let d := n % base
      let c := if d < 10 then Char.ofNat (48 + d) else Char.ofNat (55 + d)
      natToBaseAux base fuel (n / base) ++ [c]

def natToBase (base : Nat) (n : Nat) : List Char :=
  if n = 0 then ['0'] else natToBaseAux base (n + 1) n

def intToBase (base : Nat) (i : ℤ) : List Char :=
  if i < 0 then '-' :: natToBase base i.natAbs else natToBase base i.natAbs

/-- Group a digit string in threes with dots, it-IT style. -/
def groupThreesGo : Bool → List Char → List Char
  | _, [] => []
  | first, c :: cs =>
      if !first && (cs.length + 1) % 3 = 0 then '.' :: c :: groupThreesGo false cs
      else c :: groupThreesGo false cs

def groupThrees (ds : List Char) : List Char :=
  groupThreesGo true ds

/-- Round half away from zero (the Intl default rounding mode halfExpand),
applied to the absolute value and re-signed. -/
def roundHalfExpand (q : MRat) : ℤ :=
  if q < 0 then -(mfloor ((-q) + 1/2)) else mfloor (q + 1/2)

/-- Math.round: round half toward positive infinity. -/
def jsMathRound (q : MRat) : ℤ :=
  mfloor (q + 1/2)

/-- Intl.NumberFormat with locale it-IT, minimumFractionDigits 0,
maximumFractionDigits 2 and grouping, on a finite rational. -/
def formatItRat (q : MRat) : List Char :=
  let signChars : List Char := if q < 0 then ['-'] else []
  let a : MRat := if q < 0 then -q else q
  let scaled : ℤ := roundHalfExpand (a * 100)
  let n : Nat := scaled.toNat
  let ip : Nat := n / 100
  let fr : Nat := n % 100
  let ipChars := groupThrees (natToDigits ip)
  let frChars : List Char :=
    if fr = 0 then []
    else if fr % 10 = 0 then [',', Char.ofNat (48 + fr / 10)]
    else [',', Char.ofNat (48 + fr / 10), Char.ofNat (48 + fr % 10)]
  signChars ++ ipChars ++ frChars

/-- Intl it-IT formatting lifted to JavaScript numbers.  Non-finite values
format as the infinity glyphs and NaN, as Intl renders them. -/
def formatItJNum : JNum → List Char
  | JNum.fin q => formatItRat q
  | JNum.inf => ['∞']
  | JNum.negInf => ['-', '∞']
  | JNum.nan => ['N', 'a', 'N']

/-- Number.prototype.toExponential(2) on a finite rational. -/
def toExponential2 (q : MRat) : List Char :=
  if q = 0 then ('0' :: '.' :: '0' :: '0' :: 'e' :: '+' :: ['0'])
  else
    let signChars : List Char := if q < 0 then ['-'] else []
    let a : MRat := if q < 0 then -q else q
    -- find e with 10 ^ e <= a < 10 ^ (e + 1) by scanning a bounded range
    let e : ℤ := Id.run do
      let mut acc : ℤ := -60
      for i in List.range 121 do
        let cand : ℤ := -60 + i
        if pow10Z cand ≤ a then
          acc := cand
      return acc
    let m : MRat := a / pow10Z e
    let r : ℤ := roundHalfExpand (m * 100)
    let (r, e) : ℤ × ℤ := if r ≥ 1000 then (100, e + 1) else (r, e)
    let ds := natToDigits r.toNat
    let mantissa :=
      match ds with
      | d :: rest => d :: '.' :: rest
      | [] => ['0']
    let expChars :=
      if e < 0 then 'e' :: '-' :: natToDigits e.natAbs
      else 'e' :: '+' :: natToDigits e.natAbs
    signChars ++ mantissa ++ expChars

/-- String conversion of a JavaScript number obtained from parseFloat
arithmetic on decimal literals (used by the scale-suffix rewrites, where
the values are decimal fractions times powers of ten).  Renders the exact
decimal expansion, with a bounded number of fractional digits. -/
def fracDigitsGo : Nat → MRat → List Char
  | 0, _ => []
  | fuel + 1, r =>
      if r = 0 then []
      else
        let r10 := r * 10
        let d : Nat := (mfloor r10).toNat
        Char.ofNat (48 + d % 10) :: fracDigitsGo fuel (r10 - ((mfloor r10 : ℤ) : MRat))

def jsNumToString (q : MRat) : List Char :=
  let signChars : List Char := if q < 0 then ['-'] else []
  let a : MRat := if q < 0 then -q else q
  let ip : Nat := (mfloor a).toNat
  let frac := fracDigitsGo 17 (a - ((mfloor a : ℤ) : MRat))
  match frac with
  | [] => signChars ++ natToDigits ip
  | _ => signChars ++ natToDigits ip ++ '.' :: frac

/-! ## Unit and currency registry

Models the mathjs unit registry as configured by the calculator module:
the base currencies created at startup, the currencies re-defined from an
externally supplied rate table (1 USD = rate x currency, so the unit is
defined as 1/rate USD, see configureCurrencies), and the fragment of the
builtin mathjs unit database the claims exercise (mass and time units). -/

abbrev Rates := List (String × MRat)

/-- Canonical currency code for a name or alias.  Aliases follow
createUnit: the code itself, the code pluralised, both lower-cased, plus
the word aliases of the startup currencies. -/
def currencyCode (rates : Rates) (name : String) : Option String :=
  let basicAlias : List (String × String) :=
    [("dollar", "USD"), ("dollars", "USD"), ("usd", "USD"),
     ("euro", "EUR"), ("euros", "EUR"), ("eur", "EUR"),
     ("pound", "GBP"), ("pounds", "GBP"), ("gbp", "GBP"),
     ("yen", "JPY"), ("jpy", "JPY")]
  if name = "USD" || name = "USDs" then some "USD"
  else
    match basicAlias.lookup name with
    | some c => some c
    | none =>
        match rates.find? (fun p =>
            name = p.1 || name = p.1 ++ "s" ||
            name = String.mk (lowerStr p.1.data) ||
            name = String.mk (lowerStr p.1.data) ++ "s") with
        | some p => some p.1
        | none =>
            if name = "EUR" || name = "EURs" then some "EUR"
            else if name = "GBP" || name = "GBPs" then some "GBP"
            else if name = "JPY" || name = "JPYs" then some "JPY"
            else none

/-- Conversion factor of a currency code to USD.  Codes present in the
rate table are defined as (1/rate) USD; the startup fallbacks keep their
hard-coded definitions otherwise. -/
def currencyFactor (rates : Rates) (code : String) : Option MRat :=
  if code = "USD" then some 1
  else
    match (rates.filter (fun p => p.1 ≠ "USD")).lookup code with
    | some r => if r = 0 then none else some (1 / r)
    | none =>
        if code = "EUR" then some (92/100)
        else if code = "GBP" then some (79/100)
        else if code = "JPY" then some (67/10000)
        else none

/-- Builtin mathjs units used by the embedding: the mass and time families
(factors relative to the kilogram and the millisecond) and the CSS pixel
units created by initCSSUnits. -/
def builtinUnit (name : String) : Option (String × MRat) :=
  match name with
  | "kg" => some ("mass", 1)
  | "kilogram" => some ("mass", 1)
  | "kilograms" => some ("mass", 1)
  | "g" => some ("mass", 1/1000)
  | "gram" => some ("mass", 1/1000)
  | "grams" => some ("mass", 1/1000)
  | "lb" => some ("mass", 45359237/100000000)
  | "lbs" => some ("mass", 45359237/100000000)
  | "milliseconds" => some ("time", 1)
  | "millisecond" => some ("time", 1)
  | "ms" => some ("time", 1)
  | "seconds" => some ("time", 1000)
  | "second" => some ("time", 1000)
  | "minutes" => some ("time", 60000)
  | "minute" => some ("time", 60000)
  | "hours" => some ("time", 3600000)
  | "hour" => some ("time", 3600000)
  | "days" => some ("time", 86400000)
  | "day" => some ("time", 86400000)
  | "weeks" => some ("time", 604800000)
  | "week" => some ("time", 604800000)
  | "px" => some ("csslen", 1)
  | "pixel" => some ("csslen", 1)
  | "pixels" => some ("csslen", 1)
  | "em" => some ("csslen", 16)
  | "rem" => some ("csslen", 16)
  | _ => none

/-- Resolve a unit name to its dimension and its conversion factor to the
dimension base.  Currencies take precedence as they are created last with
override semantics. -/
def resolveUnit (rates : Rates) (name : String) : Option (String × MRat) :=
  match currencyCode rates name with
  | some code =>
      match currencyFactor rates code with
      | some f => some ("currency", f)
      | none => none
  | none => builtinUnit name

/-! ## Values

Tagged union of the runtime values flowing through the calculator: plain
numbers (with the mathjs percentage marker), unit quantities, dates,
timezone query results, strings (from the numeric base formatter) and
functions.  The percentage marker models the mathjs behaviour that a
percentage literal composes multiplicatively under addition and
subtraction (100 + 5% evaluates to 105) while acting as its numeric value
elsewhere; the calculator test-suite relies on both behaviours. -/

inductive Value where
  | num (x : JNum) (isPct : Bool)
  | unitQ (x : JNum) (u : String)
  | dateV (ms : ℤ)
  | timeV (ms : ℤ) (tz : Option String)
  | timeConv (ms : ℤ) (fromTz : String) (toTz : String)
  | strV (s : List Char)
  | funcV
deriving DecidableEq, Repr

/-- Unit.prototype.to: convert a unit quantity to a target unit of the
same dimension; incompatible dimensions throw in mathjs, modelled by none. -/
def convertUnit (rates : Rates) (x : JNum) (u : String) (target : String) :
    Option Value :=
  match resolveUnit rates u, resolveUnit rates target with
  | some (d1, f1), some (d2, f2) =>
      if d1 = d2 then some (Value.unitQ (x.scale (f1 / f2)) target) else none
  | _, _ => none

/-- math.add on two unit quantities: the right operand is converted to the
unit of the left; incompatible dimensions throw, modelled by none. -/
def addUnitsV (rates : Rates) (x : JNum) (u : String) (y : JNum)
    (v : String) : Option Value :=
  match resolveUnit rates u, resolveUnit rates v with
  | some (d1, f1), some (d2, f2) =>
      if d1 = d2 then some (Value.unitQ (x.add (y.scale (f2 / f1))) u)
      else none
  | _, _ => none

/-! ## The mathjs expression engine (modelled fragment)

Tokenizer and precedence-climbing evaluator for the canonical expression
strings the calculator hands to math.evaluate: decimal numbers,
identifiers resolved against the evaluation scope, the four arithmetic
operators, parentheses, unary sign, the postfix percent operator and
implicit unit attachment (a number followed by a registered unit name).
Anything outside this fragment evaluates to none, which the calculator
treats exactly like a mathjs exception. -/

inductive Tok where
  | tnum (q : MRat)
  | tid (s : String)
  | tlp
  | trp
  | tplus
  | tminus
  | tstar
  | tslash
  | tpct
deriving DecidableEq, Repr

def digitsToNat (ds : List Char) : Nat :=
  ds.foldl (fun acc c => acc * 10 + (c.toNat - 48)) 0

/-- Read a decimal literal matching the digits-dot-digits shape; returns
the matched text, its rational value and the rest. -/
def readDecimal (s : List Char) : Option (List Char × MRat × List Char) :=
  let ds := s.takeWhile (fun c => isDigitC c)
  let rest := s.dropWhile (fun c => isDigitC c)
  if ds.isEmpty then none
  else
    match rest with
    | '.' :: r2 =>
        let fs := r2.takeWhile (fun c => isDigitC c)
        let r3 := r2.dropWhile (fun c => isDigitC c)
        if fs.isEmpty then some (ds, (digitsToNat ds : MRat), rest)
        else
          some (ds ++ '.' :: fs,
            (digitsToNat ds : MRat) + (digitsToNat fs : MRat) / pow10N fs.length,
            r3)
    | _ => some (ds, (digitsToNat ds : MRat), rest)

def readIdent (s : List Char) : Option (String × List Char) :=
  match s with
  | c :: _ =>
      if isAlphaC c || c = '_' then
        let w := s.takeWhile (fun c => isAlphaC c || isDigitC c || c = '_')
        some (String.mk w, s.dropWhile (fun c => isAlphaC c || isDigitC c || c = '_'))
      else none
  | [] => none

def tokenize : Nat → List Char → Option (List Tok)
  | 0, _ => none
  | _ + 1, [] => some []
  | fuel + 1, c :: cs =>
      if isWs c then tokenize fuel cs
      else if isDigitC c then
        match readDecimal (c :: cs) with
        | some (_, q, rest) =>
            match tokenize fuel rest with
            | some ts => some (Tok.tnum q :: ts)
            | none => none
        | none => none
      else if isAlphaC c || c = '_' then
        match readIdent (c :: cs) with
        | some (w, rest) =>
            match tokenize fuel rest with
            | some ts => some (Tok.tid w :: ts)
            | none => none
        | none => none
      else
        let tok : Option Tok :=
          if c = '(' then some Tok.tlp
          else if c = ')' then some Tok.trp
          else if c = '+' then some Tok.tplus
          else if c = '-' then some Tok.tminus
          else if c = '*' then some Tok.tstar
          else if c = '/' then some Tok.tslash
          else if c = '%' then some Tok.tpct
          else none
        match tok with
        | some t =>
            match tokenize fuel cs with
            | some ts => some (t :: ts)
            | none => none
        | none => none

abbrev Scope := List (String × Value)

def scopeGet (scope : Scope) (name : String) : Option Value :=
  List.lookup name scope

def scopeSet (scope : Scope) (name : String) (v : Value) : Scope :=
  match scope with
  | [] => [(name, v)]
  | (n, w) :: rest =>
      if n = name then (n, v) :: rest else (n, w) :: scopeSet rest name v

/-- Addition and subtraction, including the mathjs percentage rule: a
right operand marked as a percentage scales the left operand. -/
def applyAddOp (isAdd : Bool) (a b : Value) : Option Value :=
  match a, b with
  | Value.num xa _, Value.num xb true =>
      let factor := if isAdd then (JNum.fin 1).add xb else (JNum.fin 1).sub xb
      some (Value.num (xa.mul factor) false)
  | Value.unitQ xa u, Value.num xb true =>
      let factor := if isAdd then (JNum.fin 1).add xb else (JNum.fin 1).sub xb
      some (Value.unitQ (xa.mul factor) u)
  | Value.num xa _, Value.num xb false =>
      some (Value.num (if isAdd then xa.add xb else xa.sub xb) false)
  | _, _ => none

def applyAddUnits (rates : Rates) (isAdd : Bool) (a b : Value) :
    Option Value :=
  match a, b with
  | Value.unitQ xa u, Value.unitQ xb v =>
      addUnitsV rates xa u (if isAdd then xb else xb.neg) v
  | _, _ => applyAddOp isAdd a b

def applyMulOp (rates : Rates) (isMul : Bool) (a b : Value) : Option Value :=
  match a, b with
  | Value.num xa _, Value.num xb _ =>
      some (Value.num (if isMul then xa.mul xb else xa.div xb) false)
  | Value.unitQ xa u, Value.num xb _ =>
      some (Value.unitQ (if isMul then xa.mul xb else xa.div xb) u)
  | Value.num xa _, Value.unitQ xb u =>
      if isMul then some (Value.unitQ (xa.mul xb) u) else none
  | Value.unitQ xa u, Value.unitQ xb v =>
      if isMul then none
      else
        match resolveUnit rates u, resolveUnit rates v with
        | some (d1, f1), some (d2, f2) =>
            if d1 = d2 then some (Value.num ((xa.scale f1).div (xb.scale f2)) false)
            else none
        | _, _ => none
  | _, _ => none

def applyNeg (a : Value) : Option Value :=
  match a with
  | Value.num x p => some (Value.num x.neg p)
  | Value.unitQ x u => some (Value.unitQ x.neg u)
  | _ => none

/-- Parser modes: expression (additive), chain of additive operators,
term (multiplicative), chain of multiplicative operators, unary and
postfix/atom. -/
inductive PMode where
  | expr
  | chainA (acc : Value)
  | term
  | chainM (acc : Value)
  | unary
  | post

def parseGo (rates : Rates) (scope : Scope) :
    Nat → PMode → List Tok → Option (Value × List Tok)
  | 0, _, _ => none
  | fuel + 1, PMode.expr, ts =>
      match parseGo rates scope fuel PMode.term ts with
      | some (v, rest) => parseGo rates scope fuel (PMode.chainA v) rest
      | none => none
  | fuel + 1, PMode.chainA acc, ts =>
      match ts with
      | Tok.tplus :: rest =>
          match parseGo rates scope fuel PMode.term rest with
          | some (w, rest2) =>
              match applyAddUnits rates true acc w with
              | some u => parseGo rates scope fuel (PMode.chainA u) rest2
              | none => none
          | none => none
      | Tok.tminus :: rest =>
          match parseGo rates scope fuel PMode.term rest with
          | some (w, rest2) =>
              match applyAddUnits rates false acc w with
              | some u => parseGo rates scope fuel (PMode.chainA u) rest2
              | none => none
          | none => none
      | _ => some (acc, ts)
  | fuel + 1, PMode.term, ts =>
      match parseGo rates scope fuel PMode.unary ts with
      | some (v, rest) => parseGo rates scope fuel (PMode.chainM v) rest
      | none => none
  | fuel + 1, PMode.chainM acc, ts =>
      match ts with
      | Tok.tstar :: rest =>
          match parseGo rates scope fuel PMode.unary rest with
          | some (w, rest2) =>
              match applyMulOp rates true acc w with
              | some u => parseGo rates scope fuel (PMode.chainM u) rest2
              | none => none
          | none => none
      | Tok.tslash :: rest =>
          match parseGo rates scope fuel PMode.unary rest with
          | some (w, rest2) =>
              match applyMulOp rates false acc w with
              | some u => parseGo rates scope fuel (PMode.chainM u) rest2
              | none => none
          | none => none
      | _ => some (acc, ts)
  | fuel + 1, PMode.unary, ts =>
      match ts with
      | Tok.tminus :: rest =>
          match parseGo rates scope fuel PMode.unary rest with
          | some (v, rest2) =>
              match applyNeg v with
              | some w => some (w, rest2)
              | none => none
          | none => none
      | Tok.tplus :: rest => parseGo rates scope fuel PMode.unary rest
      | _ => parseGo rates scope fuel PMode.post ts
  | fuel + 1, PMode.post, ts =>
      match ts with
      | Tok.tnum q :: rest =>
          match rest with
          | Tok.tpct :: rest2 =>
              some (Value.num ((JNum.fin q).div (JNum.fin 100)) true, rest2)
          | Tok.tid u :: rest2 =>
              match resolveUnit rates u with
              | some _ => some (Value.unitQ (JNum.fin q) u, rest2)
              | none => some (Value.num (JNum.fin q) false, rest)
          | _ => some (Value.num (JNum.fin q) false, rest)
      | Tok.tid s :: rest =>
          match scopeGet scope s with
          | some v =>
              match rest with
              | Tok.tpct :: rest2 =>
                  match v with
                  | Value.num x _ => some (Value.num (x.div (JNum.fin 100)) true, rest2)
                  | _ => none
              | _ => some (v, rest)
          | none => none
      | Tok.tlp :: rest =>
          match parseGo rates scope fuel PMode.expr rest with
          | some (v, Tok.trp :: rest2) =>
              match rest2 with
              | Tok.tpct :: rest3 =>
                  match v with
                  | Value.num x _ => some (Value.num (x.div (JNum.fin 100)) true, rest3)
                  | _ => some (v, rest2)
              | _ => some (v, rest2)
          | _ => none
      | _ => none

/-- math.evaluate on a canonical expression string against a scope. -/
def mathEvaluate (rates : Rates) (scope : Scope) (s : List Char) :
    Option Value :=
  match tokenize (s.length + 1) s with
  | none => none
  | some ts =>
      match parseGo rates scope (10 * ts.length + 10) PMode.expr ts with
      | some (v, []) => some v
      | _ => none

/-- math.unit on a string: strictly a decimal literal followed by a unit
name, as used for the duration side of date arithmetic. -/
def unitLiteral (rates : Rates) (s : List Char) :
    Option (MRat × String) :=
  match readDecimal (dropWs s) with
  | some (_, q, rest) =>
      match readIdent (dropWs rest) with
      | some (w, rest2) =>
          if (dropWs rest2).isEmpty then
            match resolveUnit rates w with
            | some _ => some (q, w)
            | none => none
          else none
      | none => none
  | none => none

/-- Duration in milliseconds of a unit literal, the composition
math.unit(text).to(milliseconds).toNumber() from date arithmetic. -/
def durationMs (rates : Rates) (s : List Char) : Option MRat :=
  match unitLiteral rates s with
  | some (q, w) =>
      match convertUnit rates (JNum.fin q) w "milliseconds" with
      | some (Value.unitQ (JNum.fin r) _) => some r
      | _ => none
  | none => none

/-! ## Regex-modelled string rewriting -/

/-- ASCII upper-casing (String.prototype.toUpperCase on ASCII). -/
def upperC (c : Char) : Char :=
  if 'a' ≤ c && c ≤ 'z' then Char.ofNat (c.toNat - 32) else c

def upperStr (s : List Char) : List Char :=
  s.map upperC

/-- Is the next position a non-word position (end of string or a non-word
character)?  Used for the trailing word-boundary tests. -/
def notWordNext (s : List Char) : Bool :=
  match s.head? with
  | none => true
  | some c => !isWordC c

/-- Is the previous character a word character? -/
def prevIsWord (prev : Option Char) : Bool :=
  match prev with
  | none => false
  | some c => isWordC c

/-- A matcher receives the previous original character and the input at
the current position; on success it yields the replacement, the last
original character consumed and the rest of the input.  Matchers always
consume at least one character. -/
abbrev Matcher := Option Char → List Char → Option (List Char × Option Char × List Char)

/-- Global regex replacement: scan left to right, replacing every match
and continuing after it, exactly like String.prototype.replace with the
g flag. -/
def gsubGo (f : Matcher) : Nat → Option Char → List Char → List Char
  | 0, _, s => s
  | _ + 1, _, [] => []
  | fuel + 1, prev, c :: cs =>
      match f prev (c :: cs) with
      | some (rep, lastc, rest) => rep ++ gsubGo f fuel lastc rest
      | none => c :: gsubGo f fuel (some c) cs

def gsub (f : Matcher) (s : List Char) : List Char :=
  gsubGo f s.length none s

/-- First-match-only replacement (String.prototype.replace without the
g flag). -/
def sub1Go (f : Matcher) : Nat → Option Char → List Char → List Char
  | 0, _, s => s
  | _ + 1, _, [] => []
  | fuel + 1, prev, c :: cs =>
      match f prev (c :: cs) with
      | some (rep, _, rest) => rep ++ rest
      | none => c :: sub1Go f fuel (some c) cs

def sub1 (f : Matcher) (s : List Char) : List Char :=
  sub1Go f s.length none s

/-! ### The trailing-result stripper (method removeTrailingResult) -/

def identStartC (c : Char) : Bool :=
  c = '$' || c = '_' || isAlphaC c

def identC (c : Char) : Bool :=
  identStartC c || isDigitC c

/-- Character class of the digits-dots-commas-whitespace run in the
trailing-result regexes. -/
def isDClass (c : Char) : Bool :=
  isDigitC c || c = '.' || c = ',' || isWs c

/-- Character class of the optional letter-and-currency-symbol tail of
the trailing-result regex. -/
def isLClass (c : Char) : Bool :=
  isAlphaC c || c = '%' || c = '€' || c = '$' || c = '£' || c = '¥'

/-- The simple-assignment test of removeTrailingResult: an identifier,
optional whitespace, an equals sign and a value consisting only of
digits, dots, commas and whitespace. -/
def simpleAssign (s : List Char) : Bool :=
  match s with
  | [] => false
  | c :: cs =>
      if identStartC c then
        match dropWs (cs.dropWhile identC) with
        | '=' :: r => !r.isEmpty && r.all isDClass
        | _ => false
      else false

/-- Does this text (following an equals sign) match the tail of the
trailing-result regex: one or more D-class characters followed by
optional L-class characters, up to the end of the line? -/
def matchesTrailingTail (s : List Char) : Bool :=
  match s with
  | [] => false
  | c :: _ => isDClass c && (s.dropWhile isDClass).all isLClass

/-- Index of the first equals sign whose tail matches the trailing-result
regex. -/
def findTrailingEq : Nat → List Char → Option Nat
  | _, [] => none
  | i, c :: cs =>
      if c = '=' && matchesTrailingTail cs then some i
      else findTrailingEq (i + 1) cs

def hasOpChar (s : List Char) : Bool :=
  s.any (fun c => c = '+' || c = '-' || c = '*' || c = '/' || c = '(' || c = '%')

/-- The method removeTrailingResult: strip an auto-appended trailing
result (an equals sign followed by a numeric value) when the part before
it contains arithmetic, but never strip a simple assignment. -/
def removeTrailingResult (s : List Char) : List Char :=
  if simpleAssign s then s
  else
    match findTrailingEq 0 s with
    | some j =>
        let pre := s.take j
        let partBefore := (pre.reverse.dropWhile (fun c => isWs c)).reverse
        if hasOpChar partBefore then partBefore else s
    | none => s

/-! ### Format-suffix and currency-suffix detection -/

def formatWordList : List String :=
  ["hex", "bin", "oct", "sci", "scientific", "binary", "octal", "hexadecimal"]

/-- Split a trailing suffix of the shape whitespace-in-whitespace-word
with optional trailing whitespace, returning the lower-cased word and the
text before the matched suffix.  Shared by the format-suffix and
in-currency regexes, which only differ in the word they accept. -/
def splitTrailingIn (s : List Char) : Option (List Char × List Char) :=
  let r := s.reverse
  let r1 := r.dropWhile (fun c => isWs c)
  let w := r1.takeWhile (fun c => isAlphaC c)
  if w.isEmpty then none
  else
    let r2 := r1.drop w.length
    match r2 with
    | c1 :: r3 =>
        if isWs c1 then
          let r4 := r3.dropWhile (fun c => isWs c)
          match r4 with
          | n :: i :: r5 =>
              if lowerC n = 'n' && lowerC i = 'i' then
                match r5 with
                | c2 :: _ =>
                    if isWs c2 then
                      some (w.reverse, (r5.dropWhile (fun c => isWs c)).reverse)
                    else none
                | [] => none
              else none
          | _ => none
        else none
    | [] => none

/-- Detection of the output-format suffix, the regex matching
whitespace-in-whitespace followed by one of the base keywords at the end
of the line; returns the lower-cased keyword and the stripped text. -/
def detectFormatSuffix (s : List Char) : Option (String × List Char) :=
  match splitTrailingIn s with
  | some (w, pre) =>
      let word := String.mk (lowerStr w)
      if formatWordList.contains word then some (word, pre) else none
  | none => none

/-- Detection of the in-currency suffix: whitespace-in-whitespace followed
by exactly three letters at the end of the line; returns the upper-cased
code. -/
def detectInCurrency (s : List Char) : Option String :=
  match splitTrailingIn s with
  | some (w, _) => if w.length = 3 then some (String.mk (upperStr w)) else none
  | none => none

/-- Strip the in-currency suffix (the same regex used with replace). -/
def stripInCurrency (s : List Char) : List Char :=
  match splitTrailingIn s with
  | some (w, pre) => if w.length = 3 then pre else s
  | none => s

/-! ### The informational-line test -/

def informationalTokens : List (List Char) :=
  [['s', 'u', 'm'], ['t', 'o', 't', 'a', 'l'], ['a', 'v', 'g'], ['m', 'e', 'a', 'n']]

def matchTokenAt (tok : List Char) (prev : Option Char) (s : List Char) : Bool :=
  if prevIsWord prev then false
  else
    match matchCI tok s with
    | some rest => notWordNext rest
    | none => false

def isInformationalGo : Nat → Option Char → List Char → Bool
  | 0, _, _ => false
  | _ + 1, _, [] => false
  | fuel + 1, prev, c :: cs =>
      if informationalTokens.any (fun t => matchTokenAt t prev (c :: cs)) then true
      else isInformationalGo fuel (some c) cs

/-- The word-boundary search for sum, total, avg or mean in a line, the
test deciding whether a line is informational. -/
def isInformational (s : List Char) : Bool :=
  isInformationalGo (s.length + 1) none s

/-! ### The preprocessing rewrite cascade (method preprocess)

Each rewrite models one replace call of the source, applied in the same
order.  Global rewrites use gsub, single rewrites use dedicated scans. -/

/-- Read a decimal number with a dot or comma fraction, the group of the
currency-symbol rewrites; returns the matched text and the rest. -/
def readNumTextDC (s : List Char) : Option (List Char × List Char) :=
  let ds := s.takeWhile (fun c => isDigitC c)
  if ds.isEmpty then none
  else
    let rest := s.drop ds.length
    match rest with
    | sep :: r2 =>
        if sep = '.' || sep = ',' then
          let fs := r2.takeWhile (fun c => isDigitC c)
          if fs.isEmpty then some (ds, rest)
          else some (ds ++ sep :: fs, r2.drop fs.length)
        else some (ds, rest)
    | [] => some (ds, rest)

/-- Rule: strip a leading label, the anchored regex of a letter followed
by letters, digits and whitespace up to a colon and optional whitespace. -/
def stripLeadingLabel (s : List Char) : List Char :=
  match s with
  | c :: cs =>
      if isAlphaC c then
        let run := cs.takeWhile (fun c => isAlphaC c || isDigitC c || isWs c)
        match cs.drop run.length with
        | ':' :: r => dropWs r
        | _ => s
      else s
  | [] => s

/-- Rule: rewrite a dollar-prefixed variable name, replacing the dollar
sign of a dollar-letter sequence by an underscore. -/
def mDollarVar : Matcher := fun _ s =>
  match s with
  | '$' :: c :: cs =>
      if isAlphaC c || c = '_' then some (['_'], some '$', c :: cs) else none
  | _ => none

/-- Try a list of literal alternatives (in order) followed by a word
boundary; returns the last consumed character and the rest. -/
def matchAltWB (ci : Bool) (alts : List (List Char)) (s : List Char) :
    Option (List Char × List Char) :=
  match alts with
  | [] => none
  | a :: rest =>
      match (if ci then matchCI a s else matchCS a s) with
      | some r => if notWordNext r then some (s.take a.length, r)
                  else matchAltWB ci rest s
      | none => matchAltWB ci rest s

/-- Currency-plus-scale rewrites: a currency symbol, a decimal number,
optional whitespace and a scale suffix with a word boundary, rewritten to
the scaled number followed by the currency code. -/
def mCurScale (sym : Char) (ci : Bool) (alts : List (List Char)) (mult : MRat)
    (code : List Char) : Matcher := fun _ s =>
  match s with
  | c :: cs =>
      if c = sym then
        match readDecimal cs with
        | some (_, q, rest) =>
            let rest2 := dropWs rest
            match matchAltWB ci alts rest2 with
            | some (consumed, rest3) =>
                some (jsNumToString (q * mult) ++ ' ' :: code,
                  consumed.getLast?, rest3)
            | none => none
        | none => none
      else none
  | [] => none

/-- Bare scale rewrites: a decimal number, optional whitespace and a scale
suffix with a word boundary, rewritten to the scaled number. -/
def mScale (ci : Bool) (alts : List (List Char)) (mult : MRat) : Matcher :=
  fun _ s =>
  match s with
  | c :: _ =>
      if isDigitC c then
        match readDecimal s with
        | some (_, q, rest) =>
            let rest2 := dropWs rest
            match matchAltWB ci alts rest2 with
            | some (consumed, rest3) =>
                some (jsNumToString (q * mult), consumed.getLast?, rest3)
            | none => none
        | none => none
      else none
  | [] => none

/-- Currency-symbol rewrites: a symbol directly followed by a number
(with dot or comma fraction), rewritten to the number and the code. -/
def mCurSymbol (sym : Char) (code : List Char) : Matcher := fun _ s =>
  match s with
  | c :: cs =>
      if c = sym then
        match readNumTextDC cs with
        | some (txt, rest) => some (txt ++ ' ' :: code, txt.getLast?, rest)
        | none => none
      else none
  | [] => none

/-- Multi-word unit spellings: a literal, one or more whitespace
characters and a second literal, rewritten to the joined spelling. -/
def mJoinWords (w1 w2 rep : List Char) : Matcher := fun _ s =>
  match matchCI w1 s with
  | some r1 =>
      match dropWs1 r1 with
      | some r2 =>
          match matchCI w2 r2 with
          | some r3 => some (rep, w2.getLast?, r3)
          | none => none
      | none => none
  | none => none

def shortUnitAlts : List (List Char) :=
  [['m'], ['c', 'm'], ['m', 'm'], ['k', 'm'], ['f', 't'],
   ['f', 'e', 'e', 't'], ['f', 'o', 'o', 't'], ['i', 'n'],
   ['i', 'n', 'c', 'h'], ['i', 'n', 'c', 'h', 'e', 's'], ['y', 'd'],
   ['y', 'a', 'r', 'd'], ['y', 'a', 'r', 'd', 's'], ['m', 'i'],
   ['m', 'i', 'l', 'e'], ['m', 'i', 'l', 'e', 's']]

def longUnitAlts : List (List Char) :=
  (["meter", "meters", "metre", "metres", "centimeter", "centimeters",
    "millimeter", "millimeters", "kilometer", "kilometers", "foot",
    "feet", "inch", "inches", "yard", "yards", "mile", "miles", "m",
    "cm", "mm", "km", "ft", "in", "yd", "mi"].map String.data)

/-- Normalisation of a matched unit spelling, as in the source callbacks:
lower-case and map the long spellings to their short forms. -/
def normUnitSpelling (w : List Char) : List Char :=
  let l := String.mk (lowerStr w)
  let short :=
    if l = "meters" || l = "metre" || l = "metres" || l = "meter" then "m"
    else if l = "centimeters" || l = "centimeter" then "cm"
    else if l = "millimeters" || l = "millimeter" then "mm"
    else if l = "kilometers" || l = "kilometer" then "km"
    else if l = "feet" || l = "foot" then "ft"
    else if l = "inches" then "inch"
    else if l = "yards" then "yard"
    else if l = "miles" then "mile"
    else l
  short.data

/-- Try to match one of a list of literal alternatives (in order),
case-insensitively, with no boundary requirement after. -/
def tryLit : List (List Char) → List Char → Option (List Char)
  | [], _ => none
  | p :: ps, s =>
      match matchCI p s with
      | some r => some r
      | none => tryLit ps s

def mPowerUnit (prefixes : List (List Char)) (ws1 : Bool)
    (alts : List (List Char)) (power : List Char) : Matcher := fun prev s =>
  if prevIsWord prev then none
  else
    match tryLit prefixes s with
    | some r1 =>
        let mid := if ws1 then dropWs1 r1 else some (dropWs r1)
        match mid with
        | some r2 =>
            match matchAltWB true alts r2 with
            | some (consumed, rest) =>
                some (normUnitSpelling consumed ++ power, consumed.getLast?, rest)
            | none => none
        | none => none
    | none => none

/-- Word-bounded literal rewrite (the cbm and sqm shorthands). -/
def mWordLit (w rep : List Char) : Matcher := fun prev s =>
  if prevIsWord prev then none
  else
    match matchCI w s with
    | some r => if notWordNext r then some (rep, w.getLast?, r) else none
    | none => none

/-- Natural-language operator words: one or more whitespace characters,
a word sequence and one or more whitespace characters, rewritten to the
operator surrounded by single spaces. -/
def chainWords : List (List Char) → List Char → Option (List Char)
  | [], r => some r
  | w :: rest, r =>
      match matchCI w r with
      | some r2 =>
          match dropWs1 r2 with
          | some r3 => chainWords rest r3
          | none => none
      | none => none

def mNatOp (ws : List (List Char)) (op : Char) : Matcher := fun _ s =>
  match dropWs1 s with
  | some r1 =>
      match chainWords ws r1 with
      | some rest => some ([' ', op, ' '], some ' ', rest)
      | none => none
  | none => none

/-! ### Percentage idiom rewrites -/

/-- Scan for the leftmost match of a percentage pattern: a decimal number
followed by a percent sign, one or more of the given words (each followed
by whitespace) and a non-empty remainder.  Returns the text before the
match, the number text and the remainder. -/
def scanPct (ws : List (List Char)) :
    Nat → List Char → List Char → Option (List Char × List Char × List Char)
  | 0, _, _ => none
  | _ + 1, _, [] => none
  | fuel + 1, acc, c :: cs =>
      let tryHere : Option (List Char × List Char × List Char) :=
        if isDigitC c then
          match readDecimal (c :: cs) with
          | some (txt, _, '%' :: r2) =>
              match dropWs1 r2 with
              | some r3 =>
                  match chainWords ws r3 with
                  | some rest =>
                      if rest.isEmpty then none else some (acc.reverse, txt, rest)
                  | none => none
              | none => none
          | _ => none
        else none
      match tryHere with
      | some r => some r
      | none => scanPct ws fuel (c :: acc) cs

/-- Scan for the leftmost match of an as-a-percent pattern: a non-empty
prefix, whitespace, the word as, whitespace, an optional article,
optional whitespace, a percent sign, whitespace, the given word,
whitespace and a non-empty remainder.  Returns the prefix and the
remainder. -/
def scanAsPct (word : List Char) :
    Nat → List Char → List Char → Option (List Char × List Char)
  | 0, _, _ => none
  | _ + 1, _, [] => none
  | fuel + 1, acc, c :: cs =>
      let afterPct : List Char → Option (List Char) := fun r =>
        match dropWs1 r with
        | some r7 =>
            match matchCI word r7 with
            | some r8 =>
                match dropWs1 r8 with
                | some r9 => if r9.isEmpty then none else some r9
                | none => none
            | none => none
        | none => none
      let tryHere : Option (List Char × List Char) :=
        if acc.isEmpty then none
        else
          match dropWs1 (c :: cs) with
          | some r1 =>
              match matchCI ['a', 's'] r1 with
              | some r2 =>
                  match dropWs1 r2 with
                  | some r3 =>
                      let viaArticle : Option (List Char) :=
                        match r3 with
                        | a :: r4 =>
                            if eqCI a 'a' then
                              match dropWs r4 with
                              | '%' :: r6 => afterPct r6
                              | _ => none
                            else none
                        | [] => none
                      let direct : Option (List Char) :=
                        match r3 with
                        | '%' :: r6 => afterPct r6
                        | _ => none
                      match viaArticle with
                      | some y => some (acc.reverse, y)
                      | none =>
                          match direct with
                          | some y => some (acc.reverse, y)
                          | none => none
                  | none => none
              | none => none
          | none => none
      match tryHere with
      | some r => some r
      | none => scanAsPct word fuel (c :: acc) cs

def ruleOfWhatIs (s : List Char) : List Char :=
  match scanPct ["of".data, "what".data, "is".data] (s.length + 1) [] s with
  | some (pre, txt, rest) => pre ++ '(' :: rest ++ ')' :: ' ' :: '/' :: ' ' :: txt ++ ['%']
  | none => s

def ruleOnWhatIs (s : List Char) : List Char :=
  match scanPct ["on".data, "what".data, "is".data] (s.length + 1) [] s with
  | some (pre, txt, rest) =>
      pre ++ '(' :: rest ++ ')' :: " / (1 + ".data ++ txt ++ "/100)".data
  | none => s

def ruleOffWhatIs (s : List Char) : List Char :=
  match scanPct ["off".data, "what".data, "is".data] (s.length + 1) [] s with
  | some (pre, txt, rest) =>
      pre ++ '(' :: rest ++ ')' :: " / (1 - ".data ++ txt ++ "/100)".data
  | none => s

def ruleOnPct (s : List Char) : List Char :=
  match scanPct ["on".data] (s.length + 1) [] s with
  | some (pre, txt, rest) =>
      pre ++ '(' :: rest ++ ')' :: " * (1 + ".data ++ txt ++ "/100)".data
  | none => s

def ruleOffPct (s : List Char) : List Char :=
  match scanPct ["off".data] (s.length + 1) [] s with
  | some (pre, txt, rest) =>
      pre ++ '(' :: rest ++ ')' :: " * (1 - ".data ++ txt ++ "/100)".data
  | none => s

def ruleAsPctOf (s : List Char) : List Char :=
  match scanAsPct "of".data (s.length + 1) [] s with
  | some (x, y) =>
      "((".data ++ x ++ ") / (".data ++ y ++ ")) * 100".data
  | none => s

def ruleAsPctOn (s : List Char) : List Char :=
  match scanAsPct "on".data (s.length + 1) [] s with
  | some (x, y) =>
      "(((".data ++ x ++ ") - (".data ++ y ++ ")) / (".data ++ y ++ ")) * 100".data
  | none => s

def ruleAsPctOff (s : List Char) : List Char :=
  match scanAsPct "off".data (s.length + 1) [] s with
  | some (x, y) =>
      "(((".data ++ y ++ ") - (".data ++ x ++ ")) / (".data ++ y ++ ")) * 100".data
  | none => s

def rulePctOf (s : List Char) : List Char :=
  match scanPct ["of".data] (s.length + 1) [] s with
  | some (pre, txt, rest) =>
      pre ++ txt ++ '%' :: ' ' :: '*' :: ' ' :: '(' :: rest ++ [')']
  | none => s

def descriptiveNouns : List (List Char) :=
  (["discount", "fee", "tax", "tip", "markup", "margin", "bonus",
    "interest", "rate", "increase", "decrease", "reduction",
    "savings"].map String.data)

/-- Rule: strip a descriptive noun following a bare integer percentage. -/
def mNounStrip : Matcher := fun _ s =>
  match s with
  | c :: _ =>
      if isDigitC c then
        let ds := s.takeWhile (fun c => isDigitC c)
        match s.drop ds.length with
        | '%' :: r1 =>
            match dropWs1 r1 with
            | some r2 =>
                match matchAltWB true descriptiveNouns r2 with
                | some (consumed, rest) =>
                    some (ds ++ ['%'], consumed.getLast?, rest)
                | none => none
            | none => none
        | _ => none
      else none
  | [] => none

/-! ### The full preprocessing pipeline -/

def natOpRules : List (List (List Char) × Char) :=
  [(["multiplied".data, "by".data], '*'),
   (["divided".data, "by".data], '/'),
   (["divide".data, "by".data], '/'),
   (["divide".data], '/'),
   (["times".data], '*'),
   (["mul".data], '*'),
   (["plus".data], '+'),
   (["and".data], '+'),
   (["with".data], '+'),
   (["minus".data], '-'),
   (["subtract".data], '-'),
   (["without".data], '-')]

/-- The method preprocess: the ordered rewrite cascade turning a natural
language line into canonical expression text. -/
def preprocessL (s : List Char) : List Char :=
  let s := stripLeadingLabel s
  let s := gsub mDollarVar s
  let s := gsub (mCurScale '$' true [['k']] 1000 "USD".data) s
  let s := gsub (mCurScale '$' false [['M']] 1000000 "USD".data) s
  let s := gsub (mCurScale '$' true [['B'], "billion".data] 1000000000 "USD".data) s
  let s := gsub (mCurScale '€' true [['k']] 1000 "EUR".data) s
  let s := gsub (mCurScale '€' false [['M']] 1000000 "EUR".data) s
  let s := gsub (mCurScale '£' true [['k']] 1000 "GBP".data) s
  let s := gsub (mCurScale '£' false [['M']] 1000000 "GBP".data) s
  let s := gsub (mScale true [['k']] 1000) s
  let s := gsub (mScale false [['M']] 1000000) s
  let s := gsub (mScale true [['B'], "billion".data, "billions".data] 1000000000) s
  let s := gsub (mScale true ["thousand".data, "thousands".data] 1000) s
  let s := gsub (mScale true ["million".data, "millions".data] 1000000) s
  let s := gsub (mCurSymbol '$' "USD".data) s
  let s := gsub (mCurSymbol '€' "EUR".data) s
  let s := gsub (mCurSymbol '£' "GBP".data) s
  let s := gsub (mJoinWords "tea".data "spoons".data "teaspoons".data) s
  let s := gsub (mJoinWords "table".data "spoons".data "tablespoons".data) s
  let s := gsub (mPowerUnit [['c', 'u'], ['c', 'b']] false shortUnitAlts "^3".data) s
  let s := gsub (mPowerUnit ["cubic".data] true longUnitAlts "^3".data) s
  let s := gsub (mWordLit "cbm".data "m^3".data) s
  let s := gsub (mPowerUnit [['s', 'q']] false shortUnitAlts "^2".data) s
  let s := gsub (mPowerUnit ["square".data] true longUnitAlts "^2".data) s
  let s := gsub (mWordLit "sqm".data "m^2".data) s
  let s := natOpRules.foldl (fun acc r => gsub (mNatOp r.1 r.2) acc) s
  let s := ruleOfWhatIs s
  let s := ruleOnWhatIs s
  let s := ruleOffWhatIs s
  let s := ruleOnPct s
  let s := ruleOffPct s
  let s := ruleAsPctOf s
  let s := ruleAsPctOn s
  let s := ruleAsPctOff s
  let s := rulePctOf s
  let s := gsub mNounStrip s
  s

/-! ### Numeric touch-ups applied before evaluation -/

/-- Unicode multiplication, division and minus signs to ASCII. -/
def unicodeOps (s : List Char) : List Char :=
  s.map (fun c => if c = '×' then '*' else if c = '÷' then '/' else if c = '−' then '-' else c)

/-- Thousands-separator removal: a digit, a dot and three digits followed
by a non-digit or the end of the string lose the dot. -/
def mThousands : Matcher := fun _ s =>
  match s with
  | a :: '.' :: b :: c :: d :: rest =>
      if isDigitC a && isDigitC b && isDigitC c && isDigitC d then
        match rest.head? with
        | some e => if isDigitC e then none else some ([a, b, c, d], some d, rest)
        | none => some ([a, b, c, d], some d, rest)
      else none
  | _ => none

/-- Decimal comma to decimal dot between two digits. -/
def mDecComma : Matcher := fun _ s =>
  match s with
  | a :: ',' :: b :: rest =>
      if isDigitC a && isDigitC b then some ([a, '.', b], some b, rest) else none
  | _ => none

def numericCleanup (s : List Char) : List Char :=
  gsub mDecComma (gsub mThousands (unicodeOps s))

/-! ## Civil date arithmetic (model of the host Date in UTC) -/

def daysFromCivil (y : ℤ) (m : ℕ) (d : ℕ) : ℤ :=
  let y2 : ℤ := if m ≤ 2 then y - 1 else y
  let era : ℤ := (if y2 ≥ 0 then y2 else y2 - 399) / 400
  let yoe : ℕ := (y2 - era * 400).toNat
  let mp : ℕ := if m > 2 then m - 3 else m + 9
  let doy : ℕ := (153 * mp + 2) / 5 + d - 1
  let doe : ℕ := yoe * 365 + yoe / 4 - yoe / 100 + doy
  era * 146097 + (doe : ℤ) - 719468

def civilFromDays (z0 : ℤ) : ℤ × ℕ × ℕ :=
  let z : ℤ := z0 + 719468
  let era : ℤ := (if z ≥ 0 then z else z - 146096) / 146097
  let doe : ℕ := (z - era * 146097).toNat
  let yoe : ℕ := (doe - doe / 1460 + doe / 36524 - doe / 146096) / 365
  let y : ℤ := (yoe : ℤ) + era * 400
  let doy : ℕ := doe - (365 * yoe + yoe / 4 - yoe / 100)
  let mp : ℕ := (5 * doy + 2) / 153
  let d : ℕ := doy - (153 * mp + 2) / 5 + 1
  let m : ℕ := if mp < 10 then mp + 3 else mp - 9
  (if m ≤ 2 then y + 1 else y, m, d)

def pad2 (n : ℕ) : List Char :=
  if n < 10 then '0' :: natToDigits n else natToDigits n

/-- The method formatDate: Intl en-US numeric month and day and 2-digit
year (the date is rendered from its UTC civil triple; the host timezone
is modelled as UTC). -/
def formatDateMDY (ms : ℤ) : List Char :=
  let days := Int.fdiv ms 86400000
  let c := civilFromDays days
  natToDigits c.2.1 ++ '/' :: natToDigits c.2.2 ++ '/' :: pad2 (Int.emod c.1 100).toNat

/-! ## Timezone queries (method evaluateTimezone) -/

/-- The TIMEZONE_MAP table of the source, mapping lower-case codes and
city names to IANA zone identifiers. -/
def timezoneMap : List (String × String) :=
  [("pst", "America/Los_Angeles"), ("pacific", "America/Los_Angeles"),
   ("pdt", "America/Los_Angeles"), ("mst", "America/Denver"),
   ("mountain", "America/Denver"), ("mdt", "America/Denver"),
   ("cst", "America/Chicago"), ("central", "America/Chicago"),
   ("cdt", "America/Chicago"), ("est", "America/New_York"),
   ("eastern", "America/New_York"), ("edt", "America/New_York"),
   ("hst", "Pacific/Honolulu"), ("akst", "America/Anchorage"),
   ("akdt", "America/Anchorage"), ("new york", "America/New_York"),
   ("los angeles", "America/Los_Angeles"), ("chicago", "America/Chicago"),
   ("denver", "America/Denver"), ("london", "Europe/London"),
   ("paris", "Europe/Paris"), ("berlin", "Europe/Berlin"),
   ("madrid", "Europe/Madrid"), ("rome", "Europe/Rome"),
   ("milan", "Europe/Rome"), ("amsterdam", "Europe/Amsterdam"),
   ("brussels", "Europe/Brussels"), ("zurich", "Europe/Zurich"),
   ("vienna", "Europe/Vienna"), ("stockholm", "Europe/Stockholm"),
   ("oslo", "Europe/Oslo"), ("copenhagen", "Europe/Copenhagen"),
   ("helsinki", "Europe/Helsinki"), ("moscow", "Europe/Moscow"),
   ("dubai", "Asia/Dubai"), ("mumbai", "Asia/Kolkata"),
   ("delhi", "Asia/Kolkata"), ("bangalore", "Asia/Kolkata"),
   ("singapore", "Asia/Singapore"), ("hong kong", "Asia/Hong_Kong"),
   ("hkt", "Asia/Hong_Kong"), ("tokyo", "Asia/Tokyo"),
   ("jst", "Asia/Tokyo"), ("seoul", "Asia/Seoul"),
   ("kst", "Asia/Seoul"), ("shanghai", "Asia/Shanghai"),
   ("beijing", "Asia/Shanghai"), ("cst china", "Asia/Shanghai"),
   ("sydney", "Australia/Sydney"), ("aest", "Australia/Sydney"),
   ("aedt", "Australia/Sydney"), ("melbourne", "Australia/Melbourne"),
   ("auckland", "Pacific/Auckland"), ("nzst", "Pacific/Auckland"),
   ("nzdt", "Pacific/Auckland"), ("gmt", "Etc/GMT"), ("utc", "Etc/UTC"),
   ("bst", "Europe/London"), ("cet", "Europe/Paris"),
   ("cest", "Europe/Paris"), ("ist", "Asia/Kolkata"),
   ("sgt", "Asia/Singapore")]

/-- Standard UTC offsets in minutes of the zones in the map.  Models the
getTimezoneOffsetMinutes round-trip through Intl using the standard
(non-daylight-saving) offsets of the IANA database. -/
def zoneOffsetMinutes (tz : String) : ℤ :=
  match List.lookup tz
    [("America/Los_Angeles", (-480 : ℤ)), ("America/Denver", -420),
     ("America/Chicago", -360), ("America/New_York", -300),
     ("Pacific/Honolulu", -600), ("America/Anchorage", -540),
     ("Europe/London", 0), ("Europe/Paris", 60), ("Europe/Berlin", 60),
     ("Europe/Madrid", 60), ("Europe/Rome", 60), ("Europe/Amsterdam", 60),
     ("Europe/Brussels", 60), ("Europe/Zurich", 60), ("Europe/Vienna", 60),
     ("Europe/Stockholm", 60), ("Europe/Oslo", 60),
     ("Europe/Copenhagen", 60), ("Europe/Helsinki", 120),
     ("Europe/Moscow", 180), ("Asia/Dubai", 240), ("Asia/Kolkata", 330),
     ("Asia/Singapore", 480), ("Asia/Hong_Kong", 480),
     ("Asia/Tokyo", 540), ("Asia/Seoul", 540), ("Asia/Shanghai", 480),
     ("Australia/Sydney", 600), ("Australia/Melbourne", 600),
     ("Pacific/Auckland", 720), ("Etc/GMT", 0), ("Etc/UTC", 0)] with
  | some o => o
  | none => 0

/-- Short zone name used by the Intl short timeZoneName rendering
(modelled by the trailing component of the zone identifier). -/
def zoneShort (tz : String) : List Char :=
  match (tz.data.reverse.takeWhile (fun c => c ≠ '/')).reverse with
  | [] => "UTC".data
  | w => w

def formatTimeOfDay (ms : ℤ) : List Char :=
  let mins := (Int.emod (Int.fdiv ms 60000) 1440).toNat
  let h24 := mins / 60
  let mm := mins % 60
  let h12 := if h24 % 12 = 0 then 12 else h24 % 12
  let suffix := if h24 < 12 then " AM".data else " PM".data
  natToDigits h12 ++ ':' :: pad2 mm ++ suffix

/-- Intl time-of-day rendering with an optional zone (hour numeric,
two-digit minute, twelve-hour clock, short zone name when a zone is
given; the host local timezone is modelled as UTC). -/
def formatTimeInZone (ms : ℤ) (tz : Option String) : List Char :=
  match tz with
  | none => formatTimeOfDay ms
  | some z => formatTimeOfDay (ms + zoneOffsetMinutes z * 60000) ++ ' ' :: zoneShort z

def startsWithL (pat : List Char) (s : List Char) : Bool :=
  (matchCS pat s).isSome

/-- The location-time pattern: a non-empty location, whitespace and the
literal word time at the end of the line. -/
def matchLocTime (s : List Char) : Option String :=
  let r := s.reverse
  match matchCS "emit".data r with
  | some r1 =>
      match dropWs1 r1 with
      | some r2 => if r2.isEmpty then none else some (String.mk r2.reverse)
      | none => none
  | none => none

/-- The time-in-location pattern: a leading time or now keyword,
whitespace, the word in, whitespace and a location. -/
def matchTimeIn (s : List Char) : Option String :=
  let afterKw : Option (List Char) :=
    match matchCS "time".data s with
    | some r => some r
    | none => matchCS "now".data s
  match afterKw with
  | some r1 =>
      match dropWs1 r1 with
      | some r2 =>
          match matchCS "in".data r2 with
          | some r3 =>
              match dropWs1 r3 with
              | some r4 => if r4.isEmpty then none else some (String.mk r4)
              | none => none
          | none => none
      | none => none
  | none => none

/-- The parseTime method on an hours-minutes-period triple. -/
def parseTimeHM (h m : ℕ) (period : Option (List Char)) : ℕ × ℕ :=
  let hours :=
    if period = some ['p', 'm'] && h ≠ 12 then h + 12
    else if period = some ['a', 'm'] && h = 12 then 0
    else h
  (hours, m)

/-- The explicit time-conversion pattern: a time of day, a source zone
word and a target location. -/
def matchTimeConversion (s : List Char) : Option (ℕ × ℕ × Option (List Char) × String × String) :=
  let ds := s.takeWhile (fun c => isDigitC c)
  if ds.isEmpty || ds.length > 2 then none
  else
    let r1 := s.drop ds.length
    let withMin : Option (ℕ × List Char) :=
      match r1 with
      | ':' :: a :: b :: rest =>
          if isDigitC a && isDigitC b then
            some (digitsToNat [a, b], rest)
          else none
      | _ => none
    let (mins, r2) := match withMin with
      | some (m, rest) => (m, rest)
      | none => (0, r1)
    let r3 := dropWs r2
    let (period, r4) : Option (List Char) × List Char :=
      match matchCI "am".data r3 with
      | some rest => (some ['a', 'm'], rest)
      | none =>
          match matchCI "pm".data r3 with
          | some rest => (some ['p', 'm'], rest)
          | none => (none, r3)
    match dropWs1 r4 with
    | some r5 =>
        let w := r5.takeWhile (fun c => isWordC c)
        if w.isEmpty then none
        else
          match dropWs1 (r5.drop w.length) with
          | some r6 =>
              match matchCI "in".data r6 with
              | some r7 =>
                  match dropWs1 r7 with
                  | some r8 =>
                      if r8.isEmpty then none
                      else
                        some (digitsToNat ds, mins, period,
                          String.mk (lowerStr w),
                          String.mk (jsTrim (lowerStr r8)))
                  | none => none
              | none => none
          | none => none
    | none => none

/-- The convertLocalTimeToUtc method: interpret a parsed local time of
day on the current UTC date in the source zone and convert it to an
absolute instant by subtracting that zone's offset. -/
def convertLocalTimeToUtc (nowMs : ℤ) (h m : ℕ) (fromTz : String) : ℤ :=
  let c := civilFromDays (Int.fdiv nowMs 86400000)
  let approxUtc := daysFromCivil c.1 c.2.1 c.2.2 * 86400000 + (h : ℤ) * 3600000 + (m : ℤ) * 60000
  approxUtc - zoneOffsetMinutes fromTz * 60000

/-- The method evaluateTimezone, recognising time and now queries,
location-time queries and explicit time conversions against the timezone
map.  Unknown locations fall through to arithmetic evaluation. -/
def evaluateTimezone (nowMs : ℤ) (text : List Char) : Option Value :=
  let lowerText := jsTrim (lowerStr text)
  if lowerText = "time".data || lowerText = "now".data then
    some (Value.timeV nowMs none)
  else
    let viaLoc : Option Value :=
      match matchLocTime lowerText with
      | some loc =>
          match List.lookup (String.mk (jsTrim loc.data)) timezoneMap with
          | some tz => some (Value.timeV nowMs (some tz))
          | none => none
      | none => none
    match viaLoc with
    | some v => some v
    | none =>
        let viaTimeIn : Option Value :=
          match matchTimeIn lowerText with
          | some loc =>
              match List.lookup (String.mk (jsTrim loc.data)) timezoneMap with
              | some tz => some (Value.timeV nowMs (some tz))
              | none => none
          | none => none
        match viaTimeIn with
        | some v => some v
        | none =>
            match matchTimeConversion text with
            | some (h, m, period, fromW, toW) =>
                match List.lookup fromW timezoneMap,
                      List.lookup toW timezoneMap with
                | some fromTz, some toTz =>
                    let hm := parseTimeHM h m period
                    some (Value.timeConv
                      (convertLocalTimeToUtc nowMs hm.1 hm.2 fromTz) fromTz toTz)
                | _, _ => none
            | none => none

/-! ## Date resolution (method evaluateDate) -/

/-- Configuration of one evaluation run: the external currency rate table
(1 USD = rate x currency), the host clock, and the chrono-node parser
functions.  The chrono functions are parameters so that statements can
quantify over the external date parser; chronoDate models
chrono.parseDate and chronoScan models chrono.parse, returning the
length of the first matched text together with its date. -/
structure Config where
  rates : List (String × MRat)
  nowMs : ℤ
  currentYear : ℤ
  chronoDate : String → Option ℤ
  chronoScan : String → Option (ℕ × ℤ)

/-- Does the text contain the given word with boundaries on both sides,
case-insensitively? -/
def containsWordCIGo (w : List Char) : Nat → Option Char → List Char → Bool
  | 0, _, _ => false
  | _ + 1, _, [] => false
  | fuel + 1, prev, c :: cs =>
      if matchTokenAt w prev (c :: cs) then true
      else containsWordCIGo w fuel (some c) cs

def containsWordCI (w : List Char) (s : List Char) : Bool :=
  containsWordCIGo w (s.length + 1) none s

/-- Word-bounded global replacement of a literal keyword. -/
def mHoliday (w rep : List Char) : Matcher := fun prev s =>
  if prevIsWord prev then none
  else
    match matchCI w s with
    | some r => if notWordNext r then some (rep, w.getLast?, r) else none
    | none => none

def holidayTable (year : ℤ) : List (List Char × List Char) :=
  let y := natToDigits year.toNat
  let y1 := natToDigits (year + 1).toNat
  [("christmas".data, "December 25, ".data ++ y),
   ("xmas".data, "December 25, ".data ++ y),
   ("new year".data, "January 1, ".data ++ y1),
   ("new years".data, "January 1, ".data ++ y1),
   ("halloween".data, "October 31, ".data ++ y),
   ("thanksgiving".data, "November 28, ".data ++ y),
   ("easter".data, "April 20, ".data ++ y)]

/-- The preprocessHolidayKeywords method: replace the first holiday
keyword found (one keyword only) by its date phrase. -/
def holidayRewrite (year : ℤ) (s : List Char) : List Char :=
  match (holidayTable year).find? (fun p => containsWordCI p.1 s) with
  | some p => gsub (mHoliday p.1 p.2) s
  | none => s

def untilUnits : List (List Char) :=
  (["days", "day", "weeks", "week", "months", "month", "hours", "hour",
    "minutes", "minute"].map String.data)

def untilWords : List (List Char) :=
  (["until", "to", "till", "before"].map String.data)

def untilDivisor (unit : String) : ℤ :=
  if unit = "day" || unit = "days" then 86400000
  else if unit = "week" || unit = "weeks" then 604800000
  else if unit = "month" || unit = "months" then 2592000000
  else if unit = "hour" || unit = "hours" then 3600000
  else if unit = "minute" || unit = "minutes" then 60000
  else 86400000

/-- The units-until-date pattern at the start of the line: a time unit,
one of the words until, to, till or before, and a date phrase. -/
def matchUntil (s : List Char) : Option (String × List Char) :=
  match matchAltWB true untilUnits s with
  | some (consumed, r1) =>
      match dropWs1 r1 with
      | some r2 =>
          match tryLit untilWords r2 with
          | some r3 =>
              match dropWs1 r3 with
              | some r4 =>
                  if r4.isEmpty then none
                  else some (String.mk (lowerStr consumed), r4)
              | none => none
          | none => none
      | none => none
  | none => none

/-- Index of the first plus or minus character. -/
def findPlusMinus : Nat → List Char → Option (Nat × Char)
  | _, [] => none
  | i, c :: cs =>
      if c = '+' || c = '-' then some (i, c) else findPlusMinus (i + 1) cs

def containsPlusMinus (s : List Char) : Bool :=
  s.any (fun c => c = '+' || c = '-')

/-- The evaluateDate method: holiday keywords, the units-until-date
pattern, a whole-line date, date plus-or-minus duration, and a date
phrase covering more than eighty percent of the line. -/
def evaluateDate (cfg : Config) (text0 : List Char) : Option Value :=
  let text := holidayRewrite cfg.currentYear text0
  let untilRes : Option Value :=
    match matchUntil text with
    | some (unit, dateText) =>
        match cfg.chronoDate (String.mk dateText) with
        | some target =>
            let diff : MRat := ((target - cfg.nowMs : ℤ) : MRat) / ((untilDivisor unit : ℤ) : MRat)
            some (Value.num (JNum.fin ((mceil diff : ℤ) : MRat)) false)
        | none => none
    | none => none
  match untilRes with
  | some v => some v
  | none =>
    let wholeRes : Option Value :=
      match cfg.chronoDate (String.mk text) with
      | some d =>
          if (jsTrim text).length < 50 && !containsPlusMinus text then
            some (Value.dateV d)
          else none
      | none => none
    match wholeRes with
    | some v => some v
    | none =>
      let mathRes : Option Value :=
        match findPlusMinus 0 text with
        | some (i, op) =>
            let left := ((text.take i).reverse.dropWhile (fun c => isWs c)).reverse
            let right := dropWs (text.drop (i + 1))
            match cfg.chronoDate (String.mk left) with
            | some d =>
                match durationMs cfg.rates right with
                | some ms =>
                    let newTime : MRat := (d : MRat) + (if op = '+' then ms else -ms)
                    some (Value.dateV (mfloor newTime))
                | none => none
            | none => none
        | none => none
      match mathRes with
      | some v => some v
      | none =>
          match cfg.chronoScan (String.mk text) with
          | some (len, d) =>
              if 5 * len > 4 * text.length then some (Value.dateV d) else none
          | none => none

/-! ## Result formatting (methods formatResult, formatWithBase, formatDate) -/

def spanOpen : List Char :=
  "<span class=\"text-blue-600 dark:text-blue-400 font-medium\">".data

def spanClose : List Char :=
  "</span>".data

def spanWrap (inner : List Char) : List Char :=
  spanOpen ++ inner ++ spanClose

def currencySymbols : List (String × List Char) :=
  [("EUR", ['€']), ("USD", ['$']), ("GBP", ['£']), ("JPY", ['¥']),
   ("CHF", "CHF".data), ("CAD", "CA$".data), ("AUD", "A$".data)]

def jnumPlainString : JNum → List Char
  | JNum.fin q => jsNumToString q
  | JNum.inf => "Infinity".data
  | JNum.negInf => "-Infinity".data
  | JNum.nan => "NaN".data

/-- Literal global replacement (used by the unit prettifier). -/
def mLit (w rep : List Char) : Matcher := fun _ s =>
  match matchCS w s with
  | some r => some (rep, w.getLast?, r)
  | none => none

/-- Prettify a formatted unit string: superscript exponents and the inch
and degree signs. -/
def prettifyUnits (s : List Char) : List Char :=
  let s := gsub (mLit "^2".data ['²']) s
  let s := gsub (mLit "^3".data ['³']) s
  let s := gsub (mWordLit "inch".data ['″']) s
  let s := gsub (mWordLit "deg".data ['°']) s
  s

/-- The formatWithBase method: round to an integer and render in the
requested base, or exponential notation for the scientific format. -/
def formatWithBase (x : JNum) (fmt : String) : Value :=
  let intStr : List Char :=
    match x with
    | JNum.fin q => intToBase 16 (jsMathRound q)
    | JNum.inf => "Infinity".data
    | JNum.negInf => "-Infinity".data
    | JNum.nan => "NaN".data
  match fmt with
  | "hex" => Value.strV ('0' :: 'x' :: intStr)
  | "hexadecimal" => Value.strV ('0' :: 'x' :: intStr)
  | "bin" =>
      Value.strV ('0' :: 'b' ::
        (match x with
         | JNum.fin q => intToBase 2 (jsMathRound q)
         | other => jnumPlainString other))
  | "binary" =>
      Value.strV ('0' :: 'b' ::
        (match x with
         | JNum.fin q => intToBase 2 (jsMathRound q)
         | other => jnumPlainString other))
  | "oct" =>
      Value.strV ('0' :: 'o' ::
        (match x with
         | JNum.fin q => intToBase 8 (jsMathRound q)
         | other => jnumPlainString other))
  | "octal" =>
      Value.strV ('0' :: 'o' ::
        (match x with
         | JNum.fin q => intToBase 8 (jsMathRound q)
         | other => jnumPlainString other))
  | "sci" =>
      Value.strV
        (match x with
         | JNum.fin q => toExponential2 q
         | other => jnumPlainString other)
  | "scientific" =>
      Value.strV
        (match x with
         | JNum.fin q => toExponential2 q
         | other => jnumPlainString other)
  | _ => Value.num x false

/-- The formatResult method: empty for functions and NaN, bare infinity
glyphs for non-finite numbers, and otherwise a styled span around the
locale-formatted value. -/
def formatResult (v : Value) : List Char :=
  match v with
  | Value.funcV => []
  | Value.timeV ms tz => spanWrap (formatTimeInZone ms tz)
  | Value.timeConv ms _ toTz => spanWrap (formatTimeInZone ms (some toTz))
  | Value.num x _ =>
      match x with
      | JNum.fin q =>
          let full := formatItRat q
          spanWrap (if 15 < full.length then toExponential2 q else full)
      | JNum.inf => ['∞']
      | JNum.negInf => ['-', '∞']
      | JNum.nan => []
  | Value.unitQ x u =>
      match List.lookup u currencySymbols with
      | some sym => spanWrap (sym ++ ' ' :: formatItJNum x)
      | none => spanWrap (prettifyUnits (jnumPlainString x ++ ' ' :: u.data))
  | Value.dateV ms => spanWrap (formatDateMDY ms)
  | Value.strV s =>
      spanWrap (if startsWithL "sci:".data s then s.drop 4 else s)

/-! ## The line orchestrator (method evaluate) -/

structure EvalState where
  scope : Scope
  runningSum : Value
  runningCount : ℕ
  previousResult : Value
  hasPreviousResult : Bool
deriving Repr

def numZero : Value :=
  Value.num (JNum.fin 0) false

def initState : EvalState :=
  ⟨[], numZero, 0, numZero, false⟩

def isNumV : Value → Bool
  | Value.num _ _ => true
  | _ => false

def isUnitV : Value → Bool
  | Value.unitQ _ _ => true
  | _ => false

def isZeroNum : Value → Bool
  | Value.num (JNum.fin q) _ => q = 0
  | _ => false

def numPart : Value → JNum
  | Value.num x _ => x
  | _ => JNum.nan

def isFiniteNumV : Value → Bool
  | Value.num x _ => !x.isNaN && x.isFinite
  | _ => false

/-- The running-state update of the evaluate loop: finite plain numbers
add to a numeric running sum or replace a unit one; unit quantities add
to a compatible unit running sum and otherwise replace it; every update
bumps the count and records the previous result. -/
def updateRunning (rates : Rates) (st : EvalState) (result : Value) :
    EvalState :=
  match result with
  | Value.num x _ =>
      if !x.isNaN && x.isFinite then
        let rs :=
          if isZeroNum st.runningSum || isNumV st.runningSum then
            Value.num ((numPart st.runningSum).add x) false
          else if isUnitV st.runningSum then result
          else st.runningSum
        { st with runningSum := rs, runningCount := st.runningCount + 1,
                  previousResult := result, hasPreviousResult := true }
      else st
  | Value.unitQ _ _ =>
      let rs :=
        if isZeroNum st.runningSum then result
        else
          match st.runningSum, result with
          | Value.unitQ y v, Value.unitQ x u =>
              match addUnitsV rates y v x u with
              | some r => r
              | none => result
          | _, _ => result
      { st with runningSum := rs, runningCount := st.runningCount + 1,
                previousResult := result, hasPreviousResult := true }
  | _ => st

/-- Division of the running sum by the count for the avg and mean scope
tokens (math.divide, with the catch falling back to zero). -/
def divideValueByCount (rates : Rates) (v : Value) (n : ℕ) : Value :=
  match applyMulOp rates false v (Value.num (JNum.fin n) false) with
  | some r => r
  | none => numZero

/-- Injection of the dynamic scope tokens before a line is evaluated. -/
def injectTokens (rates : Rates) (st : EvalState) : Scope :=
  let avgVal :=
    if st.runningCount > 0 then
      divideValueByCount rates st.runningSum st.runningCount
    else numZero
  let prevVal := if st.hasPreviousResult then st.previousResult else numZero
  scopeSet (scopeSet (scopeSet (scopeSet (scopeSet st.scope
    "sum" st.runningSum) "total" st.runningSum) "avg" avgVal)
    "mean" avgVal) "prev" prevVal

/-- The in-currency attachment step: a non-NaN plain number gets the
currency attached, a unit quantity is converted, anything else falls back
to the bare result; none models a thrown conversion error. -/
def tryAttachCurrency (rates : Rates) (nr : Value) (cur : String) :
    Option Value :=
  match nr with
  | Value.num x _ =>
      if x.isNaN then some nr
      else
        match resolveUnit rates cur with
        | some _ => some (Value.unitQ x cur)
        | none => none
  | Value.unitQ x u => convertUnit rates x u cur
  | _ => some nr

/-- The try-block of the evaluate loop: either the in-currency path (with
its fallback to the bare expression on conversion failure) or a direct
evaluation; none models a thrown evaluation error. -/
def lineValue (rates : Rates) (scope : Scope)
    (trimmed processed : List Char) : Option Value :=
  match detectInCurrency trimmed with
  | some cur =>
      let without := stripInCurrency processed
      match mathEvaluate rates scope without with
      | none => none
      | some nr =>
          match tryAttachCurrency rates nr cur with
          | some v => some v
          | none => some nr
  | none => mathEvaluate rates scope processed

/-- Rendering of a line outcome: the empty string for a failure, the
formatted result otherwise. -/
def renderOut : Option Value → List Char
  | none => []
  | some v => formatResult v

/-- The line text after format-suffix stripping (the last value the
mutable trimmed variable of the source takes). -/
def tailT3 (t2 : List Char) : List Char :=
  match detectFormatSuffix t2 with
  | some p => p.2
  | none => t2

/-- The date-resolution outcome for a stripped line: skipped entirely
when a format suffix was detected. -/
def tailDate (cfg : Config) (t2 : List Char) : Option Value :=
  match detectFormatSuffix t2 with
  | some _ => none
  | none => evaluateDate cfg (tailT3 t2)

/-- The canonical expression text handed to the evaluator. -/
def tailProcessed (t2 : List Char) : List Char :=
  numericCleanup (preprocessL (tailT3 t2))

/-- Continuation of line processing after the trailing-result strip:
format-suffix detection, date resolution, preprocessing, evaluation,
running-state update, base formatting and rendering. -/
def processTail (cfg : Config) (st1 : EvalState) (t2 : List Char) :
    EvalState × List Char :=
  match tailDate cfg t2 with
  | some dv => (st1, renderOut (some dv))
  | none =>
      match lineValue cfg.rates st1.scope (tailT3 t2) (tailProcessed t2) with
      | none => (st1, renderOut none)
      | some res =>
          let st2 :=
            if isInformational (tailT3 t2) then st1
            else updateRunning cfg.rates st1 res
          let res2 :=
            match detectFormatSuffix t2 with
            | some p =>
                match res with
                | Value.num x _ => formatWithBase x p.1
                | _ => res
            | none => res
          (st2, renderOut (some res2))

/-- Processing of a single line: blank-line reset, comment skip, timezone
query, token injection, trailing-result strip and the processing tail,
in the order of the source. -/
def processLine (cfg : Config) (st : EvalState) (line : List Char) :
    EvalState × List Char :=
  let trimmed := jsTrim line
  if trimmed.isEmpty then
    ({ st with runningSum := numZero, runningCount := 0 }, [])
  else if startsWithL ['#'] trimmed then (st, [])
  else if startsWithL ['/', '/'] trimmed then (st, [])
  else
    match evaluateTimezone cfg.nowMs trimmed with
    | some tv => (st, renderOut (some tv))
    | none =>
        let st1 := { st with scope := injectTokens cfg.rates st }
        processTail cfg st1 (removeTrailingResult trimmed)

/-- The per-line loop: every line contributes exactly one output. -/
def runLines (cfg : Config) : EvalState → List (List Char) → List (List Char)
  | _, [] => []
  | st, l :: ls =>
      let r := processLine cfg st l
      r.2 :: runLines cfg r.1 ls

/-- Newline splitting (String.prototype.split with a newline). -/
def splitOnNlGo : List Char → List Char → List (List Char)
  | acc, [] => [acc.reverse]
  | acc, '\n' :: rest => acc.reverse :: splitOnNlGo [] rest
  | acc, c :: rest => splitOnNlGo (c :: acc) rest

def splitOnNl (s : List Char) : List (List Char) :=
  splitOnNlGo [] s

def maxInputLength : ℕ := 100000

def maxLines : ℕ := 1000

/-- The evaluate entry point: truncate oversized input, split into lines,
truncate an oversized line list, and run the per-line loop from a fresh
state.  Returns one display string per processed line. -/
def evaluate (cfg : Config) (text : String) : List String :=
  let t0 := text.data
  let t := if maxInputLength < t0.length then t0.take maxInputLength else t0
  let ls0 := splitOnNl t
  let ls := if maxLines < ls0.length then ls0.take maxLines else ls0
  (runLines cfg initState ls).map String.mk

/-! ## The concrete chrono-node model and standard configuration -/

def monthTable : List (String × ℕ) :=
  [("january", 1), ("jan", 1), ("february", 2), ("feb", 2),
   ("march", 3), ("mar", 3), ("april", 4), ("apr", 4), ("may", 5),
   ("june", 6), ("jun", 6), ("july", 7), ("jul", 7), ("august", 8),
   ("aug", 8), ("september", 9), ("sept", 9), ("sep", 9),
   ("october", 10), ("oct", 10), ("november", 11), ("nov", 11),
   ("december", 12), ("dec", 12)]

def monthStartMs (year : ℤ) (month : ℕ) : ℤ :=
  daysFromCivil year month 1 * 86400000

/-- Scan for a number-in-month phrase (the word in followed by a month
name), part of the chrono model. -/
def inMonthScan (currentYear : ℤ) : Option Char → List Char → Option (ℕ × ℤ)
  | _, [] => none
  | prev, c :: cs =>
      let deeper :=
        if !prevIsWord prev && eqCI c 'i' then
          match cs with
          | n :: rest =>
              if eqCI n 'n' then
                match dropWs1 rest with
                | some r2 =>
                    let w := r2.takeWhile (fun c => isWordC c)
                    match List.lookup (String.mk (lowerStr w)) monthTable with
                    | some m =>
                        if notWordNext (r2.drop w.length) then
                          some (2 + (rest.length - r2.length) + w.length,
                            monthStartMs currentYear m)
                        else none
                    | none => none
                | none => none
              else none
          | [] => none
        else none
      match deeper with
      | some r => some r
      | none => inMonthScan currentYear (some c) cs

/-- Model of the external chrono-node parser: date phrases of the shapes
the calculator feeds it (the holiday rewrite output month-day-year, the
keywords today and tomorrow, a bare month name, and a number-in-month
phrase such as 64 in oct, which the source comments call out as a date
misreading).  Returns the matched length and the date; everything else,
in particular plain arithmetic lines, yields none. -/
def chronoModel (nowMs : ℤ) (currentYear : ℤ) (text : String) :
    Option (ℕ × ℤ) :=
  let l := lowerStr (jsTrim text.data)
  let s := String.mk l
  if s = "today" then some (text.length, nowMs)
  else if s = "tomorrow" then some (text.length, nowMs + 86400000)
  else
    match List.lookup s monthTable with
    | some m => some (text.length, monthStartMs currentYear m)
    | none =>
        let mdy : Option (ℕ × ℤ) :=
          match readIdent l with
          | some (w, r1) =>
              match List.lookup (String.mk (lowerStr w.data)) monthTable with
              | some m =>
                  match readDecimal (dropWs r1) with
                  | some (ds, _, r2) =>
                      let day := digitsToNat ds
                      let r3 := match r2 with
                                | ',' :: rr => dropWs rr
                                | _ => dropWs r2
                      match readDecimal r3 with
                      | some (ys, _, r4) =>
                          if r4.isEmpty && ys.length = 4 then
                            some (text.length,
                              daysFromCivil (digitsToNat ys) m day * 86400000)
                          else none
                      | none => none
                  | none => none
              | none => none
          | none => none
        match mdy with
        | some r => some r
        | none => inMonthScan currentYear none l

def chronoModelDate (nowMs : ℤ) (currentYear : ℤ) (text : String) :
    Option ℤ :=
  (chronoModel nowMs currentYear text).map (fun p => p.2)

/-- The standard configuration used by the concrete runs: the rate table
of the repository test-suite (EUR 0.92, GBP 0.79, JPY 150), a fixed
clock, and the chrono model. -/
def stdConfig : Config :=
  { rates := [("EUR", 23/25), ("GBP", 79/100), ("JPY", 150)],
    nowMs := 1760140800000,
    currentYear := 2025,
    chronoDate := chronoModelDate 1760140800000 2025,
    chronoScan := chronoModel 1760140800000 2025 }

set_option maxRecDepth 200000

/-! ## General lemmas about the pipeline -/

/-- Number of lines of a text: the length of its newline split (the
specification notion number-of-lines). -/
def numberOfLines (text : String) : ℕ :=
  (splitOnNl text.data).length

theorem runLines_length (cfg : Config) (st : EvalState)
    (ls : List (List Char)) : (runLines cfg st ls).length = ls.length := by
  induction ls generalizing st with
  | nil => rfl
  | cons l rest ih => simp [runLines, ih]

theorem splitOnNl_replicate (n : ℕ) :
    splitOnNl (List.replicate n '\n') = List.replicate (n + 1) [] := by
  induction n with
  | zero => rfl
  | succ n ih =>
      rw [List.replicate_succ]
      show [] :: splitOnNl (List.replicate n '\n') = _
      rw [ih]
      simp [List.replicate_succ]

/-! ## Claims -/

theorem evaluate_length (cfg : Config) (text : String) :
    (evaluate cfg text).length =
      min maxLines (splitOnNl (if maxInputLength < text.data.length then
        text.data.take maxInputLength else text.data)).length := by
  unfold evaluate
  simp only [List.length_map, runLines_length]
  generalize splitOnNl _ = ls0
  by_cases hL : maxLines < ls0.length
  · rw [if_pos hL]
    simp [List.length_take]
  · rw [if_neg hL]
    exact (Nat.min_eq_right (Nat.le_of_not_lt hL)).symm

/-- C1 (amended): for every non-empty input block within the input-size
caps (at most 100000 characters and at most 1000 lines), the returned
list of display strings has exactly one entry per input line, in the
order of the input lines: len(evaluate(text)) equals the number of lines
of text. -/
theorem numla_c1_one_entry_per_line (cfg : Config) (text : String)
    (hne : text ≠ "") (hlen : text.length ≤ maxInputLength)
    (hlc : numberOfLines text ≤ maxLines) :
    (evaluate cfg text).length = numberOfLines text := by
  have h0 : text ≠ "" := hne
  clear h0
  have h1 : ¬ (maxInputLength < text.data.length) := by
    intro h
    exact absurd hlen (Nat.not_le.mpr h)
  have h := evaluate_length cfg text
  rw [if_neg h1] at h
  rw [h]
  exact Nat.min_eq_right hlc

/-- Witness for C1 at a concrete three-line block. -/
theorem numla_c1_witness :
    (evaluate stdConfig "10\n20\n30").length = numberOfLines "10\n20\n30" :=
  numla_c1_one_entry_per_line stdConfig "10\n20\n30" (by decide) (by decide)
    (by decide)

/-- C1 counterexample: the claim as stated fails beyond the line cap: a
block of 1000 newline characters has 1001 lines but evaluate returns
only 1000 entries (lines beyond the cap are dropped). -/
theorem numla_c1_counterexample :
    (evaluate stdConfig (String.mk (List.replicate 1000 '\n'))).length ≠
      numberOfLines (String.mk (List.replicate 1000 '\n')) := by
  have hdata : (String.mk (List.replicate 1000 '\n')).data =
      List.replicate 1000 '\n' := rfl
  have h := evaluate_length stdConfig (String.mk (List.replicate 1000 '\n'))
  rw [hdata] at h
  rw [if_neg (by simp [maxInputLength])] at h
  rw [splitOnNl_replicate] at h
  simp only [List.length_replicate] at h
  rw [h]
  unfold numberOfLines
  rw [hdata, splitOnNl_replicate]
  simp only [List.length_replicate]
  decide

/-- C3: a blank line resets the running sum and count to their initial
values but leaves the previous result and its flag unchanged, so prev
crosses blank lines while sum and avg do not: with input 10, blank,
prev+1 the third line evaluates with prev equal to 10, while with input
10, 20, blank, 5, sum the final line reflects only 5. -/
theorem numla_c3_blank_reset :
    (∀ (cfg : Config) (st : EvalState) (line : List Char),
      (jsTrim line).isEmpty = true →
      processLine cfg st line =
        ({ st with runningSum := numZero, runningCount := 0 }, [])) ∧
    evaluate stdConfig "10\n\nprev + 1" =
      [String.mk (spanWrap "10".data), "", String.mk (spanWrap "11".data)] ∧
    evaluate stdConfig "10\n20\n\n5\nsum" =
      [String.mk (spanWrap "10".data), String.mk (spanWrap "20".data), "",
       String.mk (spanWrap "5".data), String.mk (spanWrap "5".data)] := by
  refine ⟨?_, by decide, by decide⟩
  intro cfg st line h
  unfold processLine
  simp [h]

/-- Witness for C3 applied at a concrete whitespace line and state. -/
theorem numla_c3_witness :
    processLine stdConfig
      { initState with runningSum := Value.num (JNum.fin 30) false,
                       runningCount := 2,
                       previousResult := Value.num (JNum.fin 20) false,
                       hasPreviousResult := true } [' ', ' '] =
      ({ initState with runningSum := numZero, runningCount := 0,
                        previousResult := Value.num (JNum.fin 20) false,
                        hasPreviousResult := true }, []) :=
  numla_c3_blank_reset.1 stdConfig _ [' ', ' '] (by decide)

/-- C4: the percentage idioms are rewritten as full-text substitutions
in the documented precedence: every what-is and as-a-percent pattern is
matched before the simpler of, on and off patterns, and the rewritten
lines evaluate to the documented values. -/
theorem numla_c4_percentage_precedence :
    preprocessL "20% of what is 30".data = "(30) / 20%".data ∧
    preprocessL "5% on what is 105".data = "(105) / (1 + 5/100)".data ∧
    preprocessL "5% off what is 95".data = "(95) / (1 - 5/100)".data ∧
    preprocessL "10% on 100".data = "(100) * (1 + 10/100)".data ∧
    preprocessL "20% off 100".data = "(100) * (1 - 20/100)".data ∧
    preprocessL "50 as a % of 200".data = "((50) / (200)) * 100".data ∧
    preprocessL "120 as a % on 100".data =
      "(((120) - (100)) / (100)) * 100".data ∧
    preprocessL "80 as a % off 100".data =
      "(((100) - (80)) / (100)) * 100".data ∧
    preprocessL "20% of 100".data = "20% * (100)".data ∧
    evaluate stdConfig "20% of what is 30" =
      [String.mk (spanWrap "150".data)] ∧
    evaluate stdConfig "10% on 100" = [String.mk (spanWrap "110".data)] ∧
    evaluate stdConfig "20% off 100" = [String.mk (spanWrap "80".data)] ∧
    evaluate stdConfig "50 as a % of 200" =
      [String.mk (spanWrap "25".data)] := by
  decide

/-- C5: an in-currency line evaluates the expression without the
in-clause; a plain number gets the target currency attached directly, a
unit quantity is converted, and on conversion failure the bare result is
used; each configured currency's conversion factor to USD is one over
its rate, so with the rate table EUR 0.92 the line 100 USD in EUR
yields 92 EUR. -/
theorem numla_c5_currency_in :
    currencyFactor [("EUR", 23/25)] "EUR" = some (25/23) ∧
    evaluate stdConfig "100 USD in EUR" =
      [String.mk (spanWrap ('€' :: ' ' :: "92".data))] ∧
    evaluate stdConfig "(5600 + 4%) in EUR" =
      [String.mk (spanWrap ('€' :: ' ' :: "5.824".data))] ∧
    evaluate stdConfig "100 in EUR" =
      [String.mk (spanWrap ('€' :: ' ' :: "100".data))] ∧
    evaluate stdConfig "100 kg in EUR" =
      [String.mk (spanWrap "100 kg".data)] := by
  decide

/-- C6: the trailing base-format suffix is detected and stripped before
date resolution, for any behaviour of the external date parser (the
configuration is universally quantified, so 64 in oct can never be read
as a date), the remaining expression is rounded to the nearest integer
for hex, bin and oct, and rendered in that base or in exponential
notation for sci. -/
theorem numla_c6_base_format (cfg : Config) :
    evaluate cfg "255 in hex" = [String.mk (spanWrap "0xFF".data)] ∧
    evaluate cfg "10 in bin" = [String.mk (spanWrap "0b1010".data)] ∧
    evaluate cfg "64 in oct" = [String.mk (spanWrap "0o100".data)] ∧
    evaluate cfg "2.6 in hex" = [String.mk (spanWrap "0x3".data)] ∧
    evaluate cfg "1234567890 in sci" =
      [String.mk (spanWrap "1.23e+9".data)] := by
  exact ⟨rfl, rfl, rfl, rfl, rfl⟩

/-- C2: when a line's evaluation fails (any evaluator exception), that
line's result is exactly the empty string, the running state is
unchanged (so all subsequent lines proceed unaffected) and no exception
reaches the caller; concretely, the block 10, garbage, 20 yields a
correct first and third result and an empty second one. -/
theorem numla_c2_fail_soft :
    (∀ (cfg : Config) (st : EvalState) (line : List Char),
      (jsTrim line).isEmpty = false →
      startsWithL ['#'] (jsTrim line) = false →
      startsWithL ['/', '/'] (jsTrim line) = false →
      evaluateTimezone cfg.nowMs (jsTrim line) = none →
      tailDate cfg (removeTrailingResult (jsTrim line)) = none →
      lineValue cfg.rates (injectTokens cfg.rates st)
        (tailT3 (removeTrailingResult (jsTrim line)))
        (tailProcessed (removeTrailingResult (jsTrim line))) = none →
      processLine cfg st line =
        ({ st with scope := injectTokens cfg.rates st }, [])) ∧
    evaluate stdConfig "10\ngarbage!!!\n20" =
      [String.mk (spanWrap "10".data), "", String.mk (spanWrap "20".data)] := by
  refine ⟨?_, by decide⟩
  intro cfg st line h1 h2 h3 h4 h5 h6
  unfold processLine processTail
  simp only [h1, h2, h3, h4, h5, h6, Bool.false_eq_true, if_false]
  rfl

/-- Witness for C2 at the garbage line of the concrete example. -/
theorem numla_c2_witness :
    processLine stdConfig initState "garbage!!!".data =
      ({ initState with
          scope := injectTokens stdConfig.rates initState }, []) :=
  numla_c2_fail_soft.1 stdConfig initState "garbage!!!".data (by decide)
    (by decide) (by decide) (by decide) (by decide) (by decide)

/-- C8: whenever a line's result cannot be added to the current running
sum, the accumulator is replaced by the new value and no error
propagates: a finite plain number arriving on a unit running sum
replaces it, a unit quantity arriving on a numeric running sum replaces
it, and a unit quantity of an incompatible dimension replaces a unit
running sum; the concrete blocks exercise all three switches. -/
theorem numla_c8_accumulator_type_switch :
    (∀ (rates : Rates) (st : EvalState) (y : JNum) (u : String) (q : MRat)
        (b : Bool),
      st.runningSum = Value.unitQ y u →
      updateRunning rates st (Value.num (JNum.fin q) b) =
        { st with runningSum := Value.num (JNum.fin q) b,
                  runningCount := st.runningCount + 1,
                  previousResult := Value.num (JNum.fin q) b,
                  hasPreviousResult := true }) ∧
    (∀ (rates : Rates) (st : EvalState) (y : JNum) (b : Bool) (x : JNum)
        (u : String),
      st.runningSum = Value.num y b →
      updateRunning rates st (Value.unitQ x u) =
        { st with runningSum := Value.unitQ x u,
                  runningCount := st.runningCount + 1,
                  previousResult := Value.unitQ x u,
                  hasPreviousResult := true }) ∧
    (∀ (rates : Rates) (st : EvalState) (y x : JNum) (v u : String),
      st.runningSum = Value.unitQ y v →
      addUnitsV rates y v x u = none →
      updateRunning rates st (Value.unitQ x u) =
        { st with runningSum := Value.unitQ x u,
                  runningCount := st.runningCount + 1,
                  previousResult := Value.unitQ x u,
                  hasPreviousResult := true }) ∧
    evaluate stdConfig "10\n5 kg\nsum" =
      [String.mk (spanWrap "10".data), String.mk (spanWrap "5 kg".data),
       String.mk (spanWrap "5 kg".data)] ∧
    evaluate stdConfig "5 kg\n7\nsum" =
      [String.mk (spanWrap "5 kg".data), String.mk (spanWrap "7".data),
       String.mk (spanWrap "7".data)] ∧
    evaluate stdConfig "5 kg\n3 EUR\nsum" =
      [String.mk (spanWrap "5 kg".data),
       String.mk (spanWrap ('€' :: ' ' :: "3".data)),
       String.mk (spanWrap ('€' :: ' ' :: "3".data))] := by
  refine ⟨?_, ?_, ?_, by decide, by decide, by decide⟩
  · intro rates st y u q b hrs
    unfold updateRunning
    simp [hrs, isZeroNum, isNumV, isUnitV, JNum.isNaN, JNum.isFinite]
  · intro rates st y b x u hrs
    unfold updateRunning
    by_cases hz : isZeroNum st.runningSum
    · simp [hz]
    · simp [hz, hrs]
  · intro rates st y x v u hrs hadd
    unfold updateRunning
    have hz : isZeroNum st.runningSum = false := by
      rw [hrs]; rfl
    simp [hz, hrs, hadd]

/-- Witness for C8: a number arriving on a unit running sum, a unit on a
numeric one and an incompatible unit on a unit one, at concrete values. -/
theorem numla_c8_witness :
    updateRunning stdConfig.rates
      { initState with runningSum := Value.unitQ (JNum.fin 5) "kg" }
      (Value.num (JNum.fin 7) false) =
      { initState with runningSum := Value.num (JNum.fin 7) false,
                       runningCount := 1,
                       previousResult := Value.num (JNum.fin 7) false,
                       hasPreviousResult := true } ∧
    updateRunning stdConfig.rates
      { initState with runningSum := Value.num (JNum.fin 10) false }
      (Value.unitQ (JNum.fin 5) "kg") =
      { initState with runningSum := Value.unitQ (JNum.fin 5) "kg",
                       runningCount := 1,
                       previousResult := Value.unitQ (JNum.fin 5) "kg",
                       hasPreviousResult := true } ∧
    updateRunning stdConfig.rates
      { initState with runningSum := Value.unitQ (JNum.fin 5) "kg" }
      (Value.unitQ (JNum.fin 3) "EUR") =
      { initState with runningSum := Value.unitQ (JNum.fin 3) "EUR",
                       runningCount := 1,
                       previousResult := Value.unitQ (JNum.fin 3) "EUR",
                       hasPreviousResult := true } :=
  ⟨numla_c8_accumulator_type_switch.1 stdConfig.rates _ (JNum.fin 5) "kg" 7
      false rfl,
   numla_c8_accumulator_type_switch.2.1 stdConfig.rates _ (JNum.fin 10) false
      (JNum.fin 5) "kg" rfl,
   numla_c8_accumulator_type_switch.2.2.1 stdConfig.rates _ (JNum.fin 5)
      (JNum.fin 3) "kg" "EUR" rfl (by decide)⟩

/-! ## Output shape -/

/-- Shape of every per-line output: empty, a styled span, or a bare
infinity glyph. -/
def OutShape (r : List Char) : Prop :=
  r = [] ∨ (∃ m, r = spanOpen ++ m ++ spanClose) ∨
  r = ['∞'] ∨ r = ['-', '∞']

theorem formatResult_shape (v : Value) : OutShape (formatResult v) := by
  cases v with
  | funcV => exact Or.inl rfl
  | timeV ms tz => exact Or.inr (Or.inl ⟨_, rfl⟩)
  | timeConv ms f t => exact Or.inr (Or.inl ⟨_, rfl⟩)
  | dateV ms => exact Or.inr (Or.inl ⟨_, rfl⟩)
  | strV s => exact Or.inr (Or.inl ⟨_, rfl⟩)
  | unitQ x u =>
      right
      left
      cases h : List.lookup u currencySymbols with
      | some sym =>
          exact ⟨sym ++ ' ' :: formatItJNum x, by simp [formatResult, h, spanWrap]⟩
      | none =>
          exact ⟨prettifyUnits (jnumPlainString x ++ ' ' :: u.data),
            by simp [formatResult, h, spanWrap]⟩
  | num x p =>
      cases x with
      | fin q => exact Or.inr (Or.inl ⟨_, rfl⟩)
      | inf => exact Or.inr (Or.inr (Or.inl rfl))
      | negInf => exact Or.inr (Or.inr (Or.inr rfl))
      | nan => exact Or.inl rfl

theorem renderOut_shape (o : Option Value) : OutShape (renderOut o) := by
  cases o with
  | none => exact Or.inl rfl
  | some v => exact formatResult_shape v

theorem processLine_shape (cfg : Config) (st : EvalState) (l : List Char) :
    OutShape ((processLine cfg st l).2) := by
  unfold processLine processTail
  dsimp only
  repeat' split
  all_goals dsimp only
  all_goals first
    | exact Or.inl rfl
    | exact renderOut_shape _

theorem runLines_shape (cfg : Config) :
    ∀ (st : EvalState) (ls : List (List Char)) (r : List Char),
      r ∈ runLines cfg st ls → OutShape r := by
  intro st ls
  induction ls generalizing st with
  | nil =>
      intro r h
      simp [runLines] at h
  | cons l rest ih =>
      intro r h
      simp only [runLines] at h
      rcases List.mem_cons.mp h with h1 | h2
      · rw [h1]
        exact processLine_shape cfg st l
      · exact ih _ r h2

/-- C10: every display string returned by evaluate is either empty, an
HTML span carrying the styling classes, or one of the bare infinity
glyphs (NaN renders as the empty string): the per-line outputs are HTML
markup, not plain text. -/
theorem numla_c10_span_wrapping (cfg : Config) (text : String) (r : String)
    (hmem : r ∈ evaluate cfg text) :
    r = "" ∨
    (∃ m : String, r = String.mk spanOpen ++ m ++ String.mk spanClose) ∨
    r = "∞" ∨ r = "-∞" := by
  unfold evaluate at hmem
  simp only [List.mem_map] at hmem
  obtain ⟨l, hl, rfl⟩ := hmem
  rcases runLines_shape cfg _ _ l hl with h | ⟨m, hm⟩ | h | h
  · left
    rw [h]
  · right
    left
    exact ⟨String.mk m, by rw [hm]; rfl⟩
  · right
    right
    left
    rw [h]
  · right
    right
    right
    rw [h]

/-- Witness for C10 at a division by zero, which renders as the bare
positive-infinity glyph, and at a plain line, which renders as a span. -/
theorem numla_c10_witness :
    ("∞" = "" ∨
     (∃ m : String,
        "∞" = String.mk spanOpen ++ m ++ String.mk spanClose) ∨
     "∞" = "∞" ∨ "∞" = "-∞") :=
  numla_c10_span_wrapping stdConfig "1 / 0" "∞" (by decide)

/-! ## Scope lookup lemmas -/

theorem scopeGet_scopeSet_self (s : Scope) (n : String) (v : Value) :
    scopeGet (scopeSet s n v) n = some v := by
  induction s with
  | nil => simp [scopeSet, scopeGet, List.lookup]
  | cons p rest ih =>
      obtain ⟨k, w⟩ := p
      by_cases h : k = n
      · subst h
        simp [scopeSet, scopeGet, List.lookup]
      · have hbeq : (n == k) = false := by
          simp [Ne.symm h]
        simp [scopeSet, scopeGet, h, List.lookup, hbeq]
        exact ih

theorem scopeGet_scopeSet_ne (s : Scope) (m n : String) (v : Value)
    (h : n ≠ m) : scopeGet (scopeSet s m v) n = scopeGet s n := by
  have hbeq : (n == m) = false := by simp [h]
  induction s with
  | nil => simp [scopeSet, scopeGet, List.lookup, hbeq]
  | cons p rest ih =>
      obtain ⟨k, w⟩ := p
      by_cases hk : k = m
      · subst hk
        simp [scopeSet, scopeGet, List.lookup, hbeq]
      · simp [scopeSet, scopeGet, hk, List.lookup]
        cases hnk : (n == k) with
        | true => simp
        | false => simpa [hnk] using ih

/-- The avg and mean token value injected into the scope. -/
def avgToken (rates : Rates) (st : EvalState) : Value :=
  if st.runningCount > 0 then
    divideValueByCount rates st.runningSum st.runningCount
  else numZero

theorem injectTokens_get_sum (rates : Rates) (st : EvalState) :
    scopeGet (injectTokens rates st) "sum" = some st.runningSum := by
  unfold injectTokens
  rw [scopeGet_scopeSet_ne _ _ _ _ (by decide),
      scopeGet_scopeSet_ne _ _ _ _ (by decide),
      scopeGet_scopeSet_ne _ _ _ _ (by decide),
      scopeGet_scopeSet_ne _ _ _ _ (by decide),
      scopeGet_scopeSet_self]

theorem injectTokens_get_total (rates : Rates) (st : EvalState) :
    scopeGet (injectTokens rates st) "total" = some st.runningSum := by
  unfold injectTokens
  rw [scopeGet_scopeSet_ne _ _ _ _ (by decide),
      scopeGet_scopeSet_ne _ _ _ _ (by decide),
      scopeGet_scopeSet_ne _ _ _ _ (by decide),
      scopeGet_scopeSet_self]

theorem injectTokens_get_avg (rates : Rates) (st : EvalState) :
    scopeGet (injectTokens rates st) "avg" = some (avgToken rates st) := by
  unfold injectTokens avgToken
  rw [scopeGet_scopeSet_ne _ _ _ _ (by decide),
      scopeGet_scopeSet_ne _ _ _ _ (by decide),
      scopeGet_scopeSet_self]

theorem injectTokens_get_mean (rates : Rates) (st : EvalState) :
    scopeGet (injectTokens rates st) "mean" = some (avgToken rates st) := by
  unfold injectTokens avgToken
  rw [scopeGet_scopeSet_ne _ _ _ _ (by decide),
      scopeGet_scopeSet_self]

/-! ## Symbolic evaluation of a bare identifier line -/

theorem parseGo_single_ident (rates : Rates) (scope : Scope) (f : ℕ)
    (w : String) (v : Value) (hv : scopeGet scope w = some v) :
    parseGo rates scope (f + 4) PMode.expr [Tok.tid w] = some (v, []) := by
  simp [parseGo, hv]

theorem mathEvaluate_ident (rates : Rates) (scope : Scope) (w : String)
    (v : Value) (hw : tokenize (w.data.length + 1) w.data = some [Tok.tid w])
    (hv : scopeGet scope w = some v) :
    mathEvaluate rates scope w.data = some v := by
  unfold mathEvaluate
  rw [hw]
  have h20 := parseGo_single_ident rates scope 16 w v hv
  norm_num at h20
  simp [h20]

/-! ## Value shape lemmas -/

/-- A running-sum value is a finite plain number or a unit quantity. -/
def SumShape (v : Value) : Prop :=
  (∃ q b, v = Value.num (JNum.fin q) b) ∨ (∃ x u, v = Value.unitQ x u)

theorem spanWrap_ne_nil (x : List Char) : spanWrap x ≠ [] := by
  have hopen : spanOpen ≠ [] := by decide
  intro h
  unfold spanWrap at h
  exact hopen (List.append_eq_nil.mp (List.append_eq_nil.mp h).1).1

theorem formatResult_num_fin_ne (q : MRat) (b : Bool) :
    formatResult (Value.num (JNum.fin q) b) ≠ [] :=
  spanWrap_ne_nil _

theorem formatResult_unit_ne (x : JNum) (u : String) :
    formatResult (Value.unitQ x u) ≠ [] := by
  unfold formatResult
  cases h : List.lookup u currencySymbols with
  | some sym =>
      simp only [h]
      exact spanWrap_ne_nil _
  | none =>
      simp only [h]
      exact spanWrap_ne_nil _

theorem formatResult_sumShape_ne (v : Value) (h : SumShape v) :
    formatResult v ≠ [] := by
  rcases h with ⟨q, b, rfl⟩ | ⟨x, u, rfl⟩
  · exact formatResult_num_fin_ne q b
  · exact formatResult_unit_ne x u

theorem natCast_mrat_ne_zero (n : ℕ) (h : 0 < n) : (n : MRat) ≠ 0 := by
  have h1 : (n : MRat) = ⟨(n : ℤ), 1⟩ := rfl
  have h2 : (0 : MRat) = ⟨0, 1⟩ := rfl
  rw [h1, h2]
  intro hcontra
  have h3 := congrArg MRat.num hcontra
  simp at h3
  omega

theorem avgToken_shape (rates : Rates) (st : EvalState)
    (hval : SumShape st.runningSum) : SumShape (avgToken rates st) := by
  unfold avgToken
  by_cases hc : st.runningCount > 0
  · rw [if_pos hc]
    rcases hval with ⟨q, b, hq⟩ | ⟨x, u, hx⟩
    · left
      unfold divideValueByCount
      rw [hq]
      have hne : ((st.runningCount : MRat)) ≠ 0 :=
        natCast_mrat_ne_zero st.runningCount hc
      refine ⟨q / (st.runningCount : MRat), false, ?_⟩
      simp [applyMulOp, JNum.div, hne]
    · right
      unfold divideValueByCount
      rw [hx]
      exact ⟨_, u, rfl⟩
  · rw [if_neg hc]
    exact Or.inl ⟨0, false, rfl⟩

theorem processLine_sum_line (st : EvalState) :
    processLine stdConfig st "sum".data =
      ({ st with scope := injectTokens stdConfig.rates st },
       formatResult (st.runningSum)) := by
  have hred : processLine stdConfig st "sum".data =
      processTail stdConfig
        { st with scope := injectTokens stdConfig.rates st } "sum".data := rfl
  rw [hred]
  have hlv : lineValue stdConfig.rates
      (injectTokens stdConfig.rates st) "sum".data "sum".data =
      some (st.runningSum) := by
    simp only [lineValue, show detectInCurrency "sum".data = none from rfl]
    exact mathEvaluate_ident _ _ "sum" _ (by decide) (injectTokens_get_sum _ _)
  unfold processTail
  rw [show tailDate stdConfig "sum".data = (none : Option Value) from rfl]
  dsimp only
  rw [show tailT3 "sum".data = "sum".data from rfl,
      show tailProcessed "sum".data = "sum".data from rfl]
  rw [hlv]
  dsimp only
  rw [show isInformational "sum".data = true from rfl,
      show detectFormatSuffix "sum".data =
        (none : Option (String × List Char)) from rfl]
  rfl


theorem processLine_total_line (st : EvalState) :
    processLine stdConfig st "total".data =
      ({ st with scope := injectTokens stdConfig.rates st },
       formatResult (st.runningSum)) := by
  have hred : processLine stdConfig st "total".data =
      processTail stdConfig
        { st with scope := injectTokens stdConfig.rates st } "total".data := rfl
  rw [hred]
  have hlv : lineValue stdConfig.rates
      (injectTokens stdConfig.rates st) "total".data "total".data =
      some (st.runningSum) := by
    simp only [lineValue, show detectInCurrency "total".data = none from rfl]
    exact mathEvaluate_ident _ _ "total" _ (by decide) (injectTokens_get_total _ _)
  unfold processTail
  rw [show tailDate stdConfig "total".data = (none : Option Value) from rfl]
  dsimp only
  rw [show tailT3 "total".data = "total".data from rfl,
      show tailProcessed "total".data = "total".data from rfl]
  rw [hlv]
  dsimp only
  rw [show isInformational "total".data = true from rfl,
      show detectFormatSuffix "total".data =
        (none : Option (String × List Char)) from rfl]
  rfl


theorem processLine_avg_line (st : EvalState) :
    processLine stdConfig st "avg".data =
      ({ st with scope := injectTokens stdConfig.rates st },
       formatResult (avgToken stdConfig.rates st)) := by
  have hred : processLine stdConfig st "avg".data =
      processTail stdConfig
        { st with scope := injectTokens stdConfig.rates st } "avg".data := rfl
  rw [hred]
  have hlv : lineValue stdConfig.rates
      (injectTokens stdConfig.rates st) "avg".data "avg".data =
      some (avgToken stdConfig.rates st) := by
    simp only [lineValue, show detectInCurrency "avg".data = none from rfl]
    exact mathEvaluate_ident _ _ "avg" _ (by decide) (injectTokens_get_avg _ _)
  unfold processTail
  rw [show tailDate stdConfig "avg".data = (none : Option Value) from rfl]
  dsimp only
  rw [show tailT3 "avg".data = "avg".data from rfl,
      show tailProcessed "avg".data = "avg".data from rfl]
  rw [hlv]
  dsimp only
  rw [show isInformational "avg".data = true from rfl,
      show detectFormatSuffix "avg".data =
        (none : Option (String × List Char)) from rfl]
  rfl


theorem processLine_mean_line (st : EvalState) :
    processLine stdConfig st "mean".data =
      ({ st with scope := injectTokens stdConfig.rates st },
       formatResult (avgToken stdConfig.rates st)) := by
  have hred : processLine stdConfig st "mean".data =
      processTail stdConfig
        { st with scope := injectTokens stdConfig.rates st } "mean".data := rfl
  rw [hred]
  have hlv : lineValue stdConfig.rates
      (injectTokens stdConfig.rates st) "mean".data "mean".data =
      some (avgToken stdConfig.rates st) := by
    simp only [lineValue, show detectInCurrency "mean".data = none from rfl]
    exact mathEvaluate_ident _ _ "mean" _ (by decide) (injectTokens_get_mean _ _)
  unfold processTail
  rw [show tailDate stdConfig "mean".data = (none : Option Value) from rfl]
  dsimp only
  rw [show tailT3 "mean".data = "mean".data from rfl,
      show tailProcessed "mean".data = "mean".data from rfl]
  rw [hlv]
  dsimp only
  rw [show isInformational "mean".data = true from rfl,
      show detectFormatSuffix "mean".data =
        (none : Option (String × List Char)) from rfl]
  rfl

/-- C7: only plain arithmetic or unit results update the running
accumulator (any other result value leaves the state untouched), and an
informational line whose only content is a bare sum, total, avg or mean
reference is displayed (non-empty output) without changing runningSum,
runningCount, previousResult or hasPreviousResult. -/
theorem numla_c7_informational_frame :
    (∀ (rates : Rates) (st : EvalState) (v : Value),
      isFiniteNumV v = false → isUnitV v = false →
      updateRunning rates st v = st) ∧
    (∀ (st : EvalState) (tok : String),
      (tok = "sum" ∨ tok = "total" ∨ tok = "avg" ∨ tok = "mean") →
      SumShape st.runningSum →
      ((processLine stdConfig st tok.data).1.runningSum = st.runningSum ∧
       (processLine stdConfig st tok.data).1.runningCount = st.runningCount ∧
       (processLine stdConfig st tok.data).1.previousResult =
         st.previousResult ∧
       (processLine stdConfig st tok.data).1.hasPreviousResult =
         st.hasPreviousResult ∧
       (processLine stdConfig st tok.data).2 ≠ [])) := by
  constructor
  · intro rates st v h1 h2
    cases v with
    | num x p =>
        unfold updateRunning
        have hcond : (!x.isNaN && x.isFinite) = false := by
          simpa [isFiniteNumV] using h1
        simp [hcond]
    | unitQ x u => simp [isUnitV] at h2
    | dateV ms => rfl
    | timeV ms tz => rfl
    | timeConv a b c => rfl
    | strV s => rfl
    | funcV => rfl
  · intro st tok htok hval
    rcases htok with rfl | rfl | rfl | rfl
    · rw [processLine_sum_line]
      exact ⟨rfl, rfl, rfl, rfl, formatResult_sumShape_ne _ hval⟩
    · rw [processLine_total_line]
      exact ⟨rfl, rfl, rfl, rfl, formatResult_sumShape_ne _ hval⟩
    · rw [processLine_avg_line]
      exact ⟨rfl, rfl, rfl, rfl,
        formatResult_sumShape_ne _ (avgToken_shape _ _ hval)⟩
    · rw [processLine_mean_line]
      exact ⟨rfl, rfl, rfl, rfl,
        formatResult_sumShape_ne _ (avgToken_shape _ _ hval)⟩

/-- Witness for C7: a date value does not update the accumulator, and a
bare sum line on a concrete state produces a non-empty display. -/
theorem numla_c7_witness :
    updateRunning stdConfig.rates initState (Value.dateV 0) = initState ∧
    (processLine stdConfig
      { initState with runningSum := Value.num (JNum.fin 30) false,
                       runningCount := 2 } "sum".data).2 ≠ [] :=
  ⟨numla_c7_informational_frame.1 stdConfig.rates initState (Value.dateV 0)
      rfl rfl,
   (numla_c7_informational_frame.2 _ "sum" (Or.inl rfl)
      (Or.inl ⟨30, false, rfl⟩)).2.2.2.2⟩

/-! ## Lemmas for the trailing-result stripper -/

lemma splitOnNlGo_no_nl (s : List Char) : ∀ acc, (∀ c ∈ s, c ≠ '\n') →
    splitOnNlGo acc s = [acc.reverse ++ s] := by
  induction s with
  | nil => intro acc h; simp [splitOnNlGo]
  | cons c cs ih =>
      intro acc h
      have hc : c ≠ '\n' := h c (by simp)
      rw [splitOnNlGo.eq_3 acc c cs (fun he => hc he)]
      rw [ih (c :: acc) (fun x hx => h x (by simp [hx]))]
      simp

lemma splitOnNl_no_nl (s : List Char) (h : ∀ c ∈ s, c ≠ '\n') :
    splitOnNl s = [s] := by
  unfold splitOnNl
  rw [splitOnNlGo_no_nl s [] h]
  rfl

lemma evaluate_single (cfg : Config) (s : String)
    (h : ∀ c ∈ s.data, c ≠ '\n')
    (hlen : s.data.length ≤ maxInputLength) :
    evaluate cfg s = [String.mk (processLine cfg initState s.data).2] := by
  unfold evaluate
  dsimp only
  rw [if_neg (Nat.not_lt.mpr hlen)]
  rw [splitOnNl_no_nl s.data h]
  rw [if_neg (by norm_num [maxLines])]
  simp [runLines]

lemma digitDotComma_not_ws (c : Char)
    (h : (isDigitC c || c = '.' || c = ',') = true) : isWs c = false := by
  cases hw : isWs c with
  | false => rfl
  | true =>
      exfalso
      have hmem : c = ' ' ∨ c = '\t' ∨ c = '\n' ∨ c = '\r' ∨
          c = '\x0b' ∨ c = '\x0c' := by
        simpa [isWs, or_assoc] using hw
      rcases hmem with rfl | rfl | rfl | rfl | rfl | rfl <;>
        exact absurd h (by decide)

lemma digitDotComma_ne_nl (c : Char)
    (h : (isDigitC c || c = '.' || c = ',') = true) : c ≠ '\n' := by
  intro he
  subst he
  exact absurd h (by decide)

lemma digitDotComma_dclass (c : Char)
    (h : (isDigitC c || c = '.' || c = ',') = true) : isDClass c = true := by
  simp only [Bool.or_eq_true, decide_eq_true_eq, or_assoc] at h
  rcases h with h1 | h1 | h1
  · simp [isDClass, h1]
  · subst h1; decide
  · subst h1; decide

lemma mem_dropWhile_ws (s : List Char) (c : Char)
    (h : c ∈ s.dropWhile (fun c => isWs c)) : c ∈ s :=
  (List.dropWhile_sublist _).subset h

lemma mem_rtrim (m : List Char) (c : Char)
    (h : c ∈ (m.reverse.dropWhile (fun c => isWs c)).reverse) : c ∈ m := by
  rw [List.mem_reverse] at h
  have h2 := (List.dropWhile_sublist (fun c => isWs c)).subset h
  rwa [List.mem_reverse] at h2

lemma mem_jsTrim (s : List Char) (c : Char) (h : c ∈ jsTrim s) : c ∈ s :=
  mem_dropWhile_ws s c (mem_rtrim (s.dropWhile (fun c => isWs c)) c h)

lemma rtrim_decomp (m : List Char) :
    m = (m.reverse.dropWhile (fun c => isWs c)).reverse ++
        (m.reverse.takeWhile (fun c => isWs c)).reverse := by
  conv_lhs => rw [← List.reverse_reverse m,
    ← List.takeWhile_append_dropWhile (fun c => isWs c) m.reverse]
  rw [List.reverse_append]

lemma rtrim_append_space (m : List Char) :
    ((m ++ [' ']).reverse.dropWhile (fun c => isWs c)).reverse =
      (m.reverse.dropWhile (fun c => isWs c)).reverse := by
  rw [List.reverse_append]
  simp [List.dropWhile_cons, isWs]

lemma jsTrim_append_eq (L R : List Char)
    (hM : L.dropWhile (fun c => isWs c) ≠ [])
    (hr0 : R ≠ [])
    (hws : ∀ c ∈ R, isWs c = false) :
    jsTrim (L ++ ' ' :: '=' :: ' ' :: R) =
      L.dropWhile (fun c => isWs c) ++ ' ' :: '=' :: ' ' :: R := by
  unfold jsTrim
  rw [List.dropWhile_append]
  rw [if_neg (by simp [List.isEmpty_iff, hM])]
  obtain ⟨c, cs, hrev⟩ : ∃ c cs, R.reverse = c :: cs := by
    cases hr : R.reverse with
    | nil => exact absurd (List.reverse_eq_nil_iff.mp hr) hr0
    | cons c cs => exact ⟨c, cs, rfl⟩
  have hcws : isWs c = false :=
    hws c (by rw [← List.mem_reverse, hrev]; simp)
  have hXrev : (' ' :: '=' :: ' ' :: R).reverse = c :: (cs ++ [' ', '=', ' ']) := by
    simp [hrev]
  rw [List.reverse_append, hXrev, List.cons_append, List.dropWhile_cons, hcws]
  simp only [Bool.false_eq_true, if_false]
  rw [← List.cons_append, ← hXrev, List.reverse_append,
    List.reverse_reverse, List.reverse_reverse]

lemma findTrailingEq_append (m l : List Char) :
    ∀ i, (∀ c ∈ m, c ≠ '=') →
    findTrailingEq i (m ++ l) = findTrailingEq (i + m.length) l := by
  induction m with
  | nil => intro i h; simp
  | cons a t ih =>
      intro i h
      have ha : ¬ (a = '=') := h a (by simp)
      rw [List.cons_append, findTrailingEq.eq_2]
      rw [if_neg (by simp [ha])]
      rw [ih (i + 1) (fun c hc => h c (by simp [hc]))]
      rw [List.length_cons]
      congr 1
      omega

lemma findTrailingEq_none (m : List Char) (i : ℕ) (h : ∀ c ∈ m, c ≠ '=') :
    findTrailingEq i m = none := by
  have h2 := findTrailingEq_append m [] i h
  rw [List.append_nil] at h2
  rw [h2]
  rfl

lemma removeTrailingResult_no_eq (s : List Char) (h : ∀ c ∈ s, c ≠ '=') :
    removeTrailingResult s = s := by
  unfold removeTrailingResult
  rw [findTrailingEq_none s 0 h]
  split <;> rfl

lemma simpleAssign_mem (s : List Char) (hs : simpleAssign s = true) :
    ∀ c ∈ s, (identC c || isWs c || c = '=' || isDClass c) = true := by
  cases s with
  | nil => simp [simpleAssign] at hs
  | cons a cs =>
      have hs2 : (if identStartC a = true then
          match dropWs (List.dropWhile identC cs) with
          | '=' :: r => !r.isEmpty && r.all isDClass
          | _ => false
        else false) = true := hs
      by_cases ha : identStartC a = true
      · rw [if_pos ha] at hs2
        split at hs2
        · rename_i r heq
          unfold dropWs at heq
          rw [Bool.and_eq_true] at hs2
          obtain ⟨hr1, hr2⟩ := hs2
          intro c hc
          rw [List.mem_cons] at hc
          rcases hc with rfl | hc
          · simp [identC, ha]
          · have hsplit : cs = cs.takeWhile identC ++ cs.dropWhile identC :=
              (List.takeWhile_append_dropWhile identC cs).symm
            rw [hsplit, List.mem_append] at hc
            rcases hc with hc | hc
            · have h1 := List.mem_takeWhile_imp hc
              simp [h1]
            · have husplit : cs.dropWhile identC =
                  (cs.dropWhile identC).takeWhile (fun c => isWs c) ++
                  (cs.dropWhile identC).dropWhile (fun c => isWs c) :=
                (List.takeWhile_append_dropWhile (fun c => isWs c)
                  (cs.dropWhile identC)).symm
              rw [husplit, heq, List.mem_append] at hc
              rcases hc with hc | hc
              · have h1 := List.mem_takeWhile_imp hc
                have h2 : isWs c = true := h1
                simp [h2]
              · rw [List.mem_cons] at hc
                rcases hc with rfl | hc
                · simp
                · have h1 := (List.all_eq_true.mp hr2) c hc
                  simp [h1]
        · exact absurd hs2 (by simp)
      · rw [if_neg ha] at hs2
        exact absurd hs2 (by simp)

lemma simpleAssign_no_op (s : List Char) (hs : simpleAssign s = true) :
    hasOpChar s = false := by
  cases ho : hasOpChar s with
  | false => rfl
  | true =>
      exfalso
      unfold hasOpChar at ho
      rw [List.any_eq_true] at ho
      obtain ⟨c, hc, hop⟩ := ho
      have hb := simpleAssign_mem s hs c hc
      have hmem : c = '+' ∨ c = '-' ∨ c = '*' ∨ c = '/' ∨
          c = '(' ∨ c = '%' := by
        simpa [or_assoc] using hop
      rcases hmem with rfl | rfl | rfl | rfl | rfl | rfl <;>
        exact absurd hb (by decide)

lemma hasOpChar_mono (s t : List Char) (hsub : ∀ c ∈ s, c ∈ t)
    (h : hasOpChar s = true) : hasOpChar t = true := by
  unfold hasOpChar at h ⊢
  rw [List.any_eq_true] at h ⊢
  obtain ⟨c, hc, hp⟩ := h
  exact ⟨c, hsub c hc, hp⟩

lemma removeTrailingResult_strip (M R : List Char)
    (hM : ∀ c ∈ M, c ≠ '=')
    (hop : hasOpChar ((M.reverse.dropWhile (fun c => isWs c)).reverse) = true)
    (hrd : ∀ c ∈ R, isDClass c = true) :
    removeTrailingResult (M ++ ' ' :: '=' :: ' ' :: R) =
      (M.reverse.dropWhile (fun c => isWs c)).reverse := by
  have hsa : simpleAssign (M ++ ' ' :: '=' :: ' ' :: R) = false := by
    cases h : simpleAssign (M ++ ' ' :: '=' :: ' ' :: R) with
    | false => rfl
    | true =>
        exfalso
        have hno := simpleAssign_no_op _ h
        have hyes : hasOpChar (M ++ ' ' :: '=' :: ' ' :: R) = true :=
          hasOpChar_mono _ _
            (fun c hc => List.mem_append.mpr (Or.inl (mem_rtrim M c hc))) hop
        rw [hno] at hyes
        exact absurd hyes (by simp)
  have hdrop : R.dropWhile isDClass = [] :=
    List.dropWhile_eq_nil_iff.mpr (fun c hc => hrd c hc)
  have hmt : matchesTrailingTail (' ' :: R) = true := by
    show (isDClass ' ' && ((' ' :: R).dropWhile isDClass).all isLClass) = true
    rw [List.dropWhile_cons]
    rw [if_pos (show isDClass ' ' = true from by decide)]
    rw [hdrop]
    decide
  have hfind : findTrailingEq 0 (M ++ ' ' :: '=' :: ' ' :: R) =
      some (M.length + 1) := by
    rw [findTrailingEq_append M _ 0 hM]
    rw [findTrailingEq.eq_2]
    rw [if_neg (by simp)]
    rw [findTrailingEq.eq_2]
    rw [if_pos (by simp [hmt])]
    norm_num
  have htake : (M ++ ' ' :: '=' :: ' ' :: R).take (M.length + 1) =
      M ++ [' '] := by
    have h1 : (M ++ ' ' :: '=' :: ' ' :: R).take (M.length + 1) =
        M ++ (' ' :: '=' :: ' ' :: R).take 1 := List.take_append 1
    rw [h1]
    rfl
  unfold removeTrailingResult
  rw [hsa]
  simp only [Bool.false_eq_true, if_false]
  rw [hfind]
  dsimp only
  rw [htake, rtrim_append_space, if_pos hop]

lemma startsWithL_single_cons (p t : Char) (rest : List Char) (h : t ≠ p) :
    startsWithL [p] (t :: rest) = false := by
  have hm : matchCS [p] (t :: rest) = none := by
    show (if p = t then matchCS [] rest else none) = none
    rw [if_neg (fun he => h he.symm)]
  simp [startsWithL, hm]

lemma startsWithL_two_cons (p q t : Char) (rest : List Char) (h : t ≠ p) :
    startsWithL [p, q] (t :: rest) = false := by
  have hm : matchCS [p, q] (t :: rest) = none := by
    show (if p = t then matchCS [q] rest else none) = none
    rw [if_neg (fun he => h he.symm)]
  simp [startsWithL, hm]

lemma processLine_noskip (cfg : Config) (st : EvalState) (l : List Char)
    (e1 : (jsTrim l).isEmpty = false)
    (e2 : startsWithL ['#'] (jsTrim l) = false)
    (e3 : startsWithL ['/', '/'] (jsTrim l) = false)
    (ez : evaluateTimezone cfg.nowMs (jsTrim l) = none) :
    processLine cfg st l =
      processTail cfg { st with scope := injectTokens cfg.rates st }
        (removeTrailingResult (jsTrim l)) := by
  unfold processLine
  dsimp only
  rw [e1, e2, e3, ez]
  rfl

lemma processLine_append_trailing (cfg : Config) (st : EvalState)
    (L R : List Char)
    (hop : hasOpChar (jsTrim L) = true)
    (hne : ∀ c ∈ L, c ≠ '=')
    (hr0 : R ≠ [])
    (hrc : ∀ c ∈ R, (isDigitC c || c = '.' || c = ',') = true)
    (hh1 : (jsTrim L).head? ≠ some '#')
    (hh2 : (jsTrim L).head? ≠ some '/')
    (hz1 : evaluateTimezone cfg.nowMs (jsTrim L) = none)
    (hz2 : evaluateTimezone cfg.nowMs
      (jsTrim (L ++ ' ' :: '=' :: ' ' :: R)) = none) :
    processLine cfg st (L ++ ' ' :: '=' :: ' ' :: R) = processLine cfg st L := by
  have hws : ∀ c ∈ R, isWs c = false :=
    fun c hc => digitDotComma_not_ws c (hrc c hc)
  have hT : jsTrim L ≠ [] := by
    intro he
    rw [he] at hop
    exact absurd hop (by decide)
  have hM : L.dropWhile (fun c => isWs c) ≠ [] := by
    intro he
    apply hT
    unfold jsTrim
    rw [he]
    rfl
  have htrim : jsTrim (L ++ ' ' :: '=' :: ' ' :: R) =
      L.dropWhile (fun c => isWs c) ++ ' ' :: '=' :: ' ' :: R :=
    jsTrim_append_eq L R hM hr0 hws
  have hJT : jsTrim L =
      ((L.dropWhile (fun c => isWs c)).reverse.dropWhile
        (fun c => isWs c)).reverse := rfl
  have hMdec : L.dropWhile (fun c => isWs c) =
      jsTrim L ++
      ((L.dropWhile (fun c => isWs c)).reverse.takeWhile
        (fun c => isWs c)).reverse := by
    conv_lhs => rw [rtrim_decomp (L.dropWhile (fun c => isWs c))]
    rw [← hJT]
  obtain ⟨W, hW⟩ : ∃ W,
      ((L.dropWhile (fun c => isWs c)).reverse.takeWhile
        (fun c => isWs c)).reverse = W := ⟨_, rfl⟩
  rw [hW] at hMdec
  obtain ⟨t, ts, hTc⟩ : ∃ t ts, jsTrim L = t :: ts := by
    cases h2 : jsTrim L with
    | nil => exact absurd h2 hT
    | cons t ts => exact ⟨t, ts, rfl⟩
  have ht1 : t ≠ '#' := by
    intro he
    apply hh1
    rw [hTc, he]
    rfl
  have ht2 : t ≠ '/' := by
    intro he
    apply hh2
    rw [hTc, he]
    rfl
  have e1 : (jsTrim L).isEmpty = false := by rw [hTc]; rfl
  have e2 : startsWithL ['#'] (jsTrim L) = false := by
    rw [hTc]
    exact startsWithL_single_cons '#' t ts ht1
  have e3 : startsWithL ['/', '/'] (jsTrim L) = false := by
    rw [hTc]
    exact startsWithL_two_cons '/' '/' t ts ht2
  have hcons : jsTrim (L ++ ' ' :: '=' :: ' ' :: R) =
      t :: (ts ++ W ++ ' ' :: '=' :: ' ' :: R) := by
    rw [htrim, hMdec, hTc]
    simp [List.cons_append, List.append_assoc]
  have e1' : (jsTrim (L ++ ' ' :: '=' :: ' ' :: R)).isEmpty = false := by
    rw [hcons]
    rfl
  have e2' : startsWithL ['#'] (jsTrim (L ++ ' ' :: '=' :: ' ' :: R)) =
      false := by
    rw [hcons]
    exact startsWithL_single_cons '#' t _ ht1
  have e3' : startsWithL ['/', '/'] (jsTrim (L ++ ' ' :: '=' :: ' ' :: R)) =
      false := by
    rw [hcons]
    exact startsWithL_two_cons '/' '/' t _ ht2
  rw [processLine_noskip cfg st (L ++ ' ' :: '=' :: ' ' :: R) e1' e2' e3' hz2,
      processLine_noskip cfg st L e1 e2 e3 hz1]
  have e4 : removeTrailingResult (jsTrim L) = jsTrim L :=
    removeTrailingResult_no_eq _ (fun c hc => hne c (mem_jsTrim L c hc))
  rw [e4]
  congr 1
  rw [htrim]
  have hMne : ∀ c ∈ L.dropWhile (fun c => isWs c), c ≠ '=' :=
    fun c hc => hne c (mem_dropWhile_ws L c hc)
  have hrd : ∀ c ∈ R, isDClass c = true :=
    fun c hc => digitDotComma_dclass c (hrc c hc)
  exact removeTrailingResult_strip (L.dropWhile (fun c => isWs c)) R hMne hop hrd

/-- C9 (amended): for a pure-arithmetic non-assignment line (it contains
an operator character, no equals sign and no newline; its trimmed text
does not start with a comment marker and is not a timezone query),
appending an equals sign and the line's plain rendered numeric text
(digits, dots and commas, as shown inside the result markup) leaves the
first-line result of evaluate unchanged: trailing-result stripping makes
re-evaluation idempotent.  A simple name-equals-value assignment line is
never stripped. -/
theorem numla_c9_trailing_strip_idempotent (cfg : Config) (line r : String)
    (hop : hasOpChar (jsTrim line.data) = true)
    (hne : ∀ c ∈ line.data, c ≠ '=')
    (hnl : ∀ c ∈ line.data, c ≠ '\n')
    (hr0 : r.data ≠ [])
    (hrc : ∀ c ∈ r.data, (isDigitC c || c = '.' || c = ',') = true)
    (hh1 : (jsTrim line.data).head? ≠ some '#')
    (hh2 : (jsTrim line.data).head? ≠ some '/')
    (hz1 : evaluateTimezone cfg.nowMs (jsTrim line.data) = none)
    (hz2 : evaluateTimezone cfg.nowMs
      (jsTrim (line.data ++ ' ' :: '=' :: ' ' :: r.data)) = none)
    (hlen : line.data.length + 3 + r.data.length ≤ maxInputLength) :
    (evaluate cfg (line ++ " = " ++ r)).head? = (evaluate cfg line).head? ∧
    ∀ s, simpleAssign s = true → removeTrailingResult s = s := by
  constructor
  · have hdata : (line ++ " = " ++ r).data =
        line.data ++ ' ' :: '=' :: ' ' :: r.data := by
      rw [String.data_append, String.data_append, List.append_assoc]
      rfl
    have hnl2 : ∀ c ∈ (line ++ " = " ++ r).data, c ≠ '\n' := by
      rw [hdata]
      intro c hc
      rcases List.mem_append.mp hc with h | h
      · exact hnl c h
      · simp only [List.mem_cons] at h
        rcases h with rfl | rfl | rfl | h
        · decide
        · decide
        · decide
        · exact digitDotComma_ne_nl c (hrc c h)
    have hlen1 : line.data.length ≤ maxInputLength := by omega
    have hlen2 : (line ++ " = " ++ r).data.length ≤ maxInputLength := by
      rw [hdata]
      simp only [List.length_append, List.length_cons]
      omega
    rw [evaluate_single cfg (line ++ " = " ++ r) hnl2 hlen2,
        evaluate_single cfg line hnl hlen1]
    rw [hdata]
    rw [processLine_append_trailing cfg initState line.data r.data
        hop hne hr0 hrc hh1 hh2 hz1 hz2]
  · intro s hs
    unfold removeTrailingResult
    rw [if_pos hs]

/-- Witness for C9 at the line 5 + 3 with its plain rendered result 8. -/
theorem numla_c9_witness :
    (evaluate stdConfig ("5 + 3" ++ " = " ++ "8")).head? =
      (evaluate stdConfig "5 + 3").head? ∧
    ∀ s, simpleAssign s = true → removeTrailingResult s = s :=
  numla_c9_trailing_strip_idempotent stdConfig "5 + 3" "8"
    (by decide) (by decide) (by decide) (by decide) (by decide)
    (by decide) (by decide) (by decide) (by decide) (by decide)

/-- C9 counterexample: with r taken literally as the line's own rendered
result (the HTML span markup, which is what evaluate actually returns),
re-evaluation is not idempotent: the appended markup is not recognised by
the trailing-result stripper, the line no longer parses, and the
first-line result becomes the empty string instead of the original
result. -/
theorem numla_c9_counterexample :
    evaluate stdConfig "5 + 3" =
      ["<span class=\"text-blue-600 dark:text-blue-400 font-medium\">8</span>"] ∧
    evaluate stdConfig ("5 + 3" ++ " = " ++
        "<span class=\"text-blue-600 dark:text-blue-400 font-medium\">8</span>") =
      [""] := by
  constructor
  · decide
  · decide
